import Mathlib

/-!
Verification of the echt request/response validation middleware.

The definitions below are a shallow embedding of the `validate` middleware
(the status-keyed response interceptor, the request-field validator, the
header normalization, and the two usage forms) together with a model of the
host facilities it relies on (JS values, the JSON codec, JS string coercion).
Schemas are modelled at the documented library boundary: a schema is a
function from a value to a parse outcome that either returns the validated
value, raises a structured validation-issue error, or throws a non-validation
defect.
-/

namespace Echt

/-- JS runtime values (the data request bodies, headers, query objects and
response payloads range over). `undef` is JS `undefined`; objects are ordered
association lists, as key order is observable in JS. -/
inductive Value where
  | null
  | undef
  | bool (b : Bool)
  | num (n : Int)
  | str (s : String)
  | arr (elems : List Value)
  | obj (fields : List (String × Value))
deriving Repr

/-! ### Model of the host JSON codec (`JSON.stringify` / `JSON.parse`)

The middleware's `send` interception calls the host's `JSON.parse` and
`JSON.stringify`. We model them with a concrete codec over `Value` (the
whitespace-free JSON fragment; the printer emits no whitespace, and
`JSON.stringify` never does either). `undefined` follows the host rules:
dropped from object members, `null` in array positions, and no output at all
at top level. -/

/-- One decimal digit as a character, `0 ≤ d ≤ 9` expected. -/
def digitChar (d : Nat) : Char := Char.ofNat (48 + d)

/-- Numeric value of a decimal digit character. -/
def digitVal (c : Char) : Nat := c.toNat - 48

/-- Little-endian decimal digits of `n`; `fuel ≥ n` suffices. -/
def natDigitsRev (fuel n : Nat) : List Nat :=
  match fuel, n with
  | 0, _ => []
  | _, 0 => []
  | f + 1, n + 1 => ((n + 1) % 10) :: natDigitsRev f ((n + 1) / 10)

/-- Decimal rendering of a natural number. -/
def printNat (n : Nat) : List Char :=
  if n = 0 then [digitChar 0] else ((natDigitsRev n n).reverse.map digitChar)

/-- Decimal rendering of an integer (JS number formatting for integers). -/
def printInt : Int → List Char
  | .ofNat n => printNat n
  | .negSucc m => '-' :: printNat (m + 1)

/-- JSON string escaping: quote and backslash get a backslash. -/
def escapeChar (c : Char) : List Char :=
  if c = '"' ∨ c = '\\' then ['\\', c] else [c]

/-- Escaped body of a JSON string literal. -/
def escapeList (cs : List Char) : List Char := (cs.map escapeChar).flatten

/-- A JSON string literal, quotes included. -/
def printStr (s : String) : List Char := '"' :: escapeList s.data ++ ['"']

/-- Is this value JS `undefined`? -/
def isUndef : Value → Bool
  | .undef => true
  | _ => false

mutual

/-- Serialize a value to JSON characters. The model agrees with the host
serializer on `undefined`-free values, which is the fragment every round-trip
statement below is about; a nested `undefined` is rendered as `null`. -/
def printVal : Value → List Char
  | .null => "null".data
  | .undef => "null".data
  | .bool true => "true".data
  | .bool false => "false".data
  | .num n => printInt n
  | .str s => printStr s
  | .arr es => '[' :: printElems es ++ [']']
  | .obj fs => '{' :: printMembers fs ++ ['}']

/-- Comma-separated serialization of array elements (no brackets). -/
def printElems : List Value → List Char
  | [] => []
  | [v] => printVal v
  | v :: rest => printVal v ++ ',' :: printElems rest

/-- Comma-separated serialization of object members (no braces). -/
def printMembers : List (String × Value) → List Char
  | [] => []
  | [p] => printStr p.1 ++ ':' :: printVal p.2
  | p :: rest => printStr p.1 ++ ':' :: printVal p.2 ++ ',' :: printMembers rest

end

/-- `JSON.stringify`: no result on a top-level `undefined`, a string otherwise. -/
def jsonStringify : Value → Option String
  | .undef => none
  | v => some (String.mk (printVal v))

mutual

/-- Does the value contain no `undefined` anywhere? (Such values round-trip
through the JSON codec unchanged.) -/
def noUndef : Value → Bool
  | .null => true
  | .undef => false
  | .bool _ => true
  | .num _ => true
  | .str _ => true
  | .arr es => noUndefList es
  | .obj fs => noUndefFields fs

/-- All elements free of `undefined`. -/
def noUndefList : List Value → Bool
  | [] => true
  | v :: rest => noUndef v && noUndefList rest

/-- All member values free of `undefined`. -/
def noUndefFields : List (String × Value) → Bool
  | [] => true
  | p :: rest => noUndef p.2 && noUndefFields rest

end

/-- Leading run of decimal digits and the remaining input. -/
def takeDigits : List Char → List Char × List Char
  | [] => ([], [])
  | c :: rest =>
    if c.isDigit then
      let (ds, r) := takeDigits rest
      (c :: ds, r)
    else ([], c :: rest)

/-- Value of a big-endian digit-character list. -/
def leVal : List Nat → Nat
  | [] => 0
  | d :: rest => d + 10 * leVal rest

/-- Parse a nonempty run of digits into a natural number. -/
def parseNum (cs : List Char) : Except String (Nat × List Char) :=
  match takeDigits cs with
  | ([], _) => .error ("Expected digit in JSON")
  | (ds, r) => .ok (leVal ((ds.map digitVal).reverse), r)

/-- Parse the body of a JSON string literal after the opening quote, up to and
including the closing quote. -/
def parseStrBody : List Char → Except String (List Char × List Char)
  | [] => .error ("Unterminated string in JSON")
  | c :: rest =>
    if c = '"' then .ok ([], rest)
    else if c = '\\' then
      match rest with
      | [] => .error ("Unterminated escape in JSON")
      | e :: rest2 =>
        match parseStrBody rest2 with
        | .ok (cs, r) => .ok (e :: cs, r)
        | .error msg => .error msg
    else
      match parseStrBody rest with
      | .ok (cs, r) => .ok (c :: cs, r)
      | .error msg => .error msg

/-- Expect a literal continuation (the tail of `null` / `true` / `false`). -/
def expectLit (lit : List Char) (cs : List Char) (v : Value) :
    Except String (Value × List Char) :=
  if lit.isPrefixOf cs then .ok (v, cs.drop lit.length)
  else .error ("Invalid literal in JSON")

mutual

/-- Recursive-descent JSON parser; `fuel` bounds the recursion depth. -/
def parseVal : Nat → List Char → Except String (Value × List Char)
  | 0, _ => .error ("JSON input too deeply nested")
  | f + 1, cs =>
    match cs with
    | [] => .error ("Unexpected end of JSON input")
    | c :: rest =>
      if c = 'n' then expectLit "ull".data rest .null
      else if c = 't' then expectLit "rue".data rest (.bool true)
      else if c = 'f' then expectLit "alse".data rest (.bool false)
      else if c = '"' then
        match parseStrBody rest with
        | .ok (ks, r) => .ok (.str (String.mk ks), r)
        | .error msg => .error msg
      else if c = '[' then
        match parseElems f rest with
        | .ok (vs, r) => .ok (.arr vs, r)
        | .error msg => .error msg
      else if c = '{' then
        match parseMembers f rest with
        | .ok (fs, r) => .ok (.obj fs, r)
        | .error msg => .error msg
      else if c = '-' then
        match parseNum rest with
        | .ok (n, r) => .ok (.num (-(n : Int)), r)
        | .error msg => .error msg
      else if c.isDigit then
        match parseNum (c :: rest) with
        | .ok (n, r) => .ok (.num (Int.ofNat n), r)
        | .error msg => .error msg
      else .error ("Unexpected token in JSON")

/-- Parse array elements up to and including the closing bracket. -/
def parseElems : Nat → List Char → Except String (List Value × List Char)
  | 0, _ => .error ("JSON input too deeply nested")
  | f + 1, cs =>
    match cs with
    | [] => .error ("Unexpected end of JSON input")
    | c :: rest =>
      if c = ']' then .ok ([], rest)
      else
        match parseVal f (c :: rest) with
        | .error msg => .error msg
        | .ok (v, r) =>
          match r with
          | ',' :: r2 =>
            match parseElems f r2 with
            | .ok (vs, r3) => .ok (v :: vs, r3)
            | .error msg => .error msg
          | ']' :: r2 => .ok ([v], r2)
          | _ => .error ("Expected comma or closing bracket in JSON array")

/-- Parse object members up to and including the closing brace. -/
def parseMembers : Nat → List Char → Except String (List (String × Value) × List Char)
  | 0, _ => .error ("JSON input too deeply nested")
  | f + 1, cs =>
    match cs with
    | [] => .error ("Unexpected end of JSON input")
    | c :: rest =>
      if c = '}' then .ok ([], rest)
      else if c = '"' then
        match parseStrBody rest with
        | .error msg => .error msg
        | .ok (ks, r1) =>
          match r1 with
          | ':' :: r2 =>
            match parseVal f r2 with
            | .error msg => .error msg
            | .ok (v, r3) =>
              match r3 with
              | ',' :: r4 =>
                match parseMembers f r4 with
                | .ok (fs, r5) => .ok ((String.mk ks, v) :: fs, r5)
                | .error msg => .error msg
              | '}' :: r4 => .ok ([(String.mk ks, v)], r4)
              | _ => .error ("Expected comma or closing brace in JSON object")
          | _ => .error ("Expected colon in JSON object")
      else .error ("Expected string key in JSON object")

end

/-- `JSON.parse`: parse a complete JSON document, rejecting trailing input. -/
def jsonParse (s : String) : Except String Value :=
  match parseVal (s.length + 1) s.data with
  | .error msg => .error msg
  | .ok (v, []) => .ok v
  | .ok (_, _ :: _) => .error ("Unexpected character after JSON document")

/-! ### Model of JS string coercion and string search

`JSON.parse` coerces its argument with the abstract `ToString` operation; the
content-type check uses `String.prototype.includes`. -/

mutual

/-- JS `String(x)` coercion. Arrays join their elements with commas, with
`null`/`undefined` elements contributing the empty string; plain objects
become the `[object Object]` tag. -/
def jsToString : Value → String
  | .null => "null"
  | .undef => "undefined"
  | .bool true => "true"
  | .bool false => "false"
  | .num n => String.mk (printInt n)
  | .str s => s
  | .arr es => joinComma es
  | .obj _ => "[object Object]"

/-- `Array.prototype.toString`: elements joined with commas. -/
def joinComma : List Value → String
  | [] => ""
  | [v] =>
    match v with
    | .null => ""
    | .undef => ""
    | v => jsToString v
  | v :: rest =>
    (match v with
     | .null => ""
     | .undef => ""
     | v => jsToString v) ++ "," ++ joinComma rest

end

/-- Does `needle` occur as a contiguous run inside `hay`? -/
def hasInfix (hay needle : List Char) : Bool :=
  match hay with
  | [] => needle.isEmpty
  | _ :: t => needle.isPrefixOf hay || hasInfix t needle

/-- `res.get('Content-Type')?.includes('application/json')` with an optional
header value: `none` (header unset) is `undefined`, giving `false`. -/
def ctIncludesJson : Option String → Bool
  | none => false
  | some ct => hasInfix ct.data "application/json".data

/-- ASCII lowercasing of one character (model of JS `toLowerCase`). -/
def lowerChar (c : Char) : Char :=
  if 'A' ≤ c ∧ c ≤ 'Z' then Char.ofNat (c.toNat + 32) else c

/-- ASCII lowercasing of a string (model of JS `toLowerCase`). -/
def lowerStr (s : String) : String := String.mk (s.data.map lowerChar)

/-! ### The schema-library boundary

A zod schema is consumed only through `schema.parse(value)`, which returns
the validated (possibly coerced/stripped) value, throws a `ZodError` carrying
a list of issues, or throws some other (non-validation) exception. -/

/-- One validation issue: location path, human message, machine code. -/
structure Issue where
  path : List String
  message : String
  code : String
deriving Repr, DecidableEq

/-- Outcome of `schema.parse(value)`. -/
inductive ParseResult where
  | ok (v : Value)
  | zodError (issues : List Issue)
  | thrown (message : String)
deriving Repr

/-- A schema, seen through its `parse` operation. -/
def Schema := Value → ParseResult

/-- The schema contract a route author supplies: five optional request-side
schemas, plus the simple (`response`) or typed (`useResponse`) response slot.
The typed slot maps HTTP status codes to schemas. -/
structure ValidationSchema where
  headers : Option Schema := none
  body : Option Schema := none
  query : Option Schema := none
  params : Option Schema := none
  locals : Option Schema := none
  response : Option Schema := none
  useResponse : Option (List (Nat × Schema)) := none

/-! ### Request/response state -/

/-- The mutable per-request state the middleware reads and writes. `headers`
is the JS header object (values are `string`, `string[]` or `undefined` on
arrival, arbitrary values after a validated merge); `locals` lives on the
response object in the source but is validated like the request fields. -/
structure ReqState where
  headers : List (String × Value)
  body : Value
  query : Value
  params : Value
  locals : Value

/-- The observable response-object state: the status set so far and the
declared content type (read through `res.get('Content-Type')`). -/
structure ResState where
  statusCode : Nat := 200
  contentType : Option String := none
deriving Repr, DecidableEq

/-- A call of the original (transport-level) body-emission operations. -/
inductive Emission where
  | json (body : Value)
  | send (body : Value)
deriving Repr

/-- A JS exception as the middleware distinguishes them: a `ZodError`
carrying its issue list, or any other error with its message. -/
inductive JsError where
  | zod (issues : List Issue)
  | error (message : String)
deriving Repr

/-- What the host framework observes of one middleware invocation: a body
handed to the transport, an error on the error channel (either `next(error)`
or a synchronous throw), control passed on via `next()`, or a return with no
response emitted. -/
inductive HostOutcome where
  | emitted (req : ReqState) (res : ResState) (e : Emission)
  | errorChannel (err : JsError)
  | fellThrough (req : ReqState) (res : ResState)
  | noResponse (req : ReqState) (res : ResState)

/-! ### JS object operations -/

/-- `obj[k] = v` on an association-list object: overwrite an existing key in
place, otherwise append. -/
def objSet (l : List (String × Value)) (k : String) (v : Value) :
    List (String × Value) :=
  if l.any (fun p => p.1 == k) then
    l.map (fun p => if p.1 == k then (k, v) else p)
  else l ++ [(k, v)]

/-- `Object.assign(target, source)`: copy every member of `source` into
`target` in order. -/
def objAssign (target source : List (String × Value)) : List (String × Value) :=
  source.foldl (fun acc p => objSet acc p.1 p.2) target

/-- `Object.fromEntries`: build an object from pairs, later keys winning. -/
def objFromEntries (entries : List (String × Value)) : List (String × Value) :=
  objAssign [] entries

/-! ### Header normalization (source lines 481-507) -/

/-- The per-header-value step of the normalization: a string stays itself;
otherwise a truthy value is indexed at 0 (first element of an array,
`undefined` for an empty array) and a falsy one becomes `undefined`. On the
domain Node delivers (`string`, `string[]`, `undefined`) this is exactly the
source's branch structure. -/
def headerFirst : Value → Value
  | .str s => .str s
  | .arr es => es.headD .undef
  | _ => (.undef)

/-- The header normalization view handed to the headers schema: every key
lowercased, every value reduced by `headerFirst`, assembled with
`Object.fromEntries`. -/
def buildHeaderData (headers : List (String × Value)) : List (String × Value) :=
  objFromEntries (headers.map (fun p => (lowerStr p.1, headerFirst p.2)))

/-- `Object.assign(req.headers, result)`: merge the validated result into the
original header object. A non-object result contributes no enumerable
members (schemas return objects here). -/
def mergeHeaders (headers : List (String × Value)) (result : Value) :
    List (String × Value) :=
  match result with
  | .obj entries => objAssign headers entries
  | _ => headers

/-! ### Request-field validation (source lines 477-559)

Each of the five fields repeats the same block: if a schema is present, parse
the field's input; on success write the result back, on a `ZodError` push it
onto `validationErrors`, on any other exception rethrow (which aborts the
whole phase). -/

/-- Accumulator of the field-validation phase: current request state and the
`validationErrors` batches collected so far. -/
abbrev FieldAcc := ReqState × List (List Issue)

/-- One field's try/catch block. The error case carries the rethrown
non-`ZodError` message together with the state at the throw. -/
def runField (schema? : Option Schema) (get : ReqState → Value)
    (set : ReqState → Value → ReqState) (acc : FieldAcc) :
    Except (String × ReqState) FieldAcc :=
  match schema? with
  | none => .ok acc
  | some schema =>
    match schema (get acc.1) with
    | .ok result => .ok (set acc.1 result, acc.2)
    | .zodError issues => .ok (acc.1, acc.2 ++ [issues])
    | .thrown msg => .error (msg, acc.1)

/-- The five field blocks in source order: headers (normalized input, merged
write-back), then body, query, params (replacing write-back), then locals. -/
def validateFields (s : ValidationSchema) (st : ReqState) :
    Except (String × ReqState) FieldAcc := do
  let acc ← runField s.headers (fun st => .obj (buildHeaderData st.headers))
      (fun st v => { st with headers := mergeHeaders st.headers v }) (st, [])
  let acc ← runField s.body (fun st => st.body)
      (fun st v => { st with body := v }) acc
  let acc ← runField s.query (fun st => st.query)
      (fun st v => { st with query := v }) acc
  let acc ← runField s.params (fun st => st.params)
      (fun st v => { st with params := v }) acc
  runField s.locals (fun st => st.locals)
      (fun st v => { st with locals := v }) acc

/-- One issue as it appears in the 400 wire format. -/
def issueValue (i : Issue) : Value :=
  .obj [("path", .arr (i.path.map Value.str)),
        ("message", .str i.message),
        ("code", .str i.code)]

/-- The 400 wire body: every issue, flattened, under the single key
`errors`. -/
def errorsValue (issues : List Issue) : Value :=
  .obj [("errors", .arr (issues.map issueValue))]

/-! ### The response interceptor (source lines 569-640) -/

/-- `chainedRes.json(body)` with active status `code`: look up the schema for
the code (missing schema is the fatal configuration error naming the code),
validate, and hand the validated result to the original `json`. -/
def chainedJson (ur : List (Nat × Schema)) (code : Nat) (body : Value) :
    Except JsError Emission :=
  match ur.lookup code with
  | none => .error (.error ("No schema defined for status code " ++ toString code))
  | some schema =>
    match schema body with
    | .ok result => .ok (.json result)
    | .zodError issues => .error (.zod issues)
    | .thrown msg => .error (.error msg)

/-- `chainedRes.send(body)` with active status `code`: when the declared
content type includes `application/json`, first `JSON.parse` the body (a
decode failure throws out of the interceptor); then look up and apply the
schema for the code; finally re-serialize the validated result when the
content type was JSON, and pass it through raw otherwise. -/
def chainedSend (ur : List (Nat × Schema)) (code : Nat) (ct : Option String)
    (body : Value) : Except JsError Emission :=
  let decoded : Except JsError Value :=
    if ctIncludesJson ct then
      match jsonParse (jsToString body) with
      | .ok v => .ok v
      | .error msg => .error (.error msg)
    else .ok body
  match decoded with
  | .error e => .error e
  | .ok decodedBody =>
    match ur.lookup code with
    | none => .error (.error ("No schema defined for status code " ++ toString code))
    | some schema =>
      match schema decodedBody with
      | .ok result =>
        if ctIncludesJson ct then
          .ok (.send (match jsonStringify result with
                      | some s => .str s
                      | none => .undef))
        else .ok (.send result)
      | .zodError issues => .error (.zod issues)
      | .thrown msg => .error (.error msg)

/-! ### The application handler

The attached handler is modelled as one interaction with the response object:
optionally declare a content type (`res.type(...)`), then perform one of the
response-emission idioms, select a status without emitting, call `next()`, or
throw. -/

/-- The handler's single interaction with the response object. -/
inductive HandlerAct where
  | json (body : Value)
  | send (body : Value)
  | statusJson (code : Nat) (body : Value)
  | statusSend (code : Nat) (body : Value)
  | statusOnly (code : Nat)
  | callNext
  | throwError (message : String)

/-- A handler program: an optional `res.type(ct)` then one action. -/
structure HandlerProg where
  setType : Option String := none
  act : HandlerAct

/-- What running the handler against the response object produced. -/
inductive ActResult where
  | emitted (res : ResState) (e : Emission)
  | threw (res : ResState) (err : JsError)
  | returned (res : ResState)
  | calledNext (res : ResState)

/-- Lift an interceptor outcome to a handler-run outcome. -/
def ofChained (rst : ResState) : Except JsError Emission → ActResult
  | .ok e => .emitted rst e
  | .error err => .threw rst err

/-- Handler action against the intercepted response object (typed mode):
`status(code)` runs the original status setter at selection time and binds
the emission to `code`; plain `json`/`send` validate against the schema for
200 without touching the status. -/
def runActTyped (ur : List (Nat × Schema)) (rst : ResState) :
    HandlerAct → ActResult
  | .json body => ofChained rst (chainedJson ur 200 body)
  | .send body => ofChained rst (chainedSend ur 200 rst.contentType body)
  | .statusJson code body =>
    ofChained { rst with statusCode := code }
      (chainedJson ur code body)
  | .statusSend code body =>
    ofChained { rst with statusCode := code }
      (chainedSend ur code rst.contentType body)
  | .statusOnly code => .returned { rst with statusCode := code }
  | .callNext => .calledNext rst
  | .throwError msg => .threw rst (.error msg)

/-- Handler action against the untouched response object (simple mode or no
response schema installs no interception): every emission reaches the
transport unvalidated. -/
def runActPlain (rst : ResState) : HandlerAct → ActResult
  | .json body => .emitted rst (.json body)
  | .send body => .emitted rst (.send body)
  | .statusJson code body => .emitted { rst with statusCode := code } (.json body)
  | .statusSend code body => .emitted { rst with statusCode := code } (.send body)
  | .statusOnly code => .returned { rst with statusCode := code }
  | .callNext => .calledNext rst
  | .throwError msg => .threw rst (.error msg)

/-- Apply the handler's `res.type(...)` declaration, if any. -/
def applyType (h : HandlerProg) (rst : ResState) : ResState :=
  match h.setType with
  | some ct => { rst with contentType := some ct }
  | none => rst

/-! ### The middleware (source lines 471-691) -/

/-- The catch block of `middleware` for an exception thrown by the handler
(which runs inside the try, via the `next()` callback): a `ZodError` is
re-dispatched as `res.status(400).json({ errors })` — through the already
intercepted `status`/`json` in typed mode, so that re-dispatch itself may
throw out to the host — and any other error goes to `next(error)`. -/
def middlewareCatch (s : ValidationSchema) (st : ReqState) (rst : ResState)
    (err : JsError) : HostOutcome :=
  match err with
  | .zod issues =>
    match s.useResponse with
    | some ur =>
      match chainedJson ur 400 (errorsValue issues) with
      | .ok e => .emitted st { rst with statusCode := 400 } e
      | .error e2 => .errorChannel e2
    | none => .emitted st { rst with statusCode := 400 } (.json (errorsValue issues))
  | .error msg => .errorChannel (.error msg)

/-- One request through `validate(schemas).use(handler)`: run the field
phase (a rethrown defect goes to `next(error)`); on collected validation
errors emit the aggregated 400 through the original, not yet intercepted
operations; otherwise install the interceptor when `useResponse` is set and
run the handler, routing a handler exception through the catch block. -/
def runUse (s : ValidationSchema) (st : ReqState) (rst : ResState)
    (h : HandlerProg) : HostOutcome :=
  match validateFields s st with
  | .error (msg, _) => .errorChannel (.error msg)
  | .ok (st', batches) =>
    if batches.isEmpty then
      let rst := applyType h rst
      let result :=
        match s.useResponse with
        | some ur => runActTyped ur rst h.act
        | none => runActPlain rst h.act
      match result with
      | .emitted rst' e => .emitted st' rst' e
      | .returned rst' => .noResponse st' rst'
      | .calledNext rst' => .fellThrough st' rst'
      | .threw rst' err => middlewareCatch s st' rst' err
    else
      .emitted st' { rst with statusCode := 400 }
        (.json (errorsValue batches.flatten))

/-- One request through the direct form (`validate(schemas)` used as the
handler itself): the wrapped middleware first rejects a typed-response
contract with the fail-fast configuration error, then runs the field phase;
on success control continues down the host chain. -/
def runDirect (s : ValidationSchema) (st : ReqState) (rst : ResState) :
    HostOutcome :=
  if s.useResponse.isSome then
    .errorChannel (.error "When using useResponse, you must call .use() to provide a handler")
  else
    match validateFields s st with
    | .error (msg, _) => .errorChannel (.error msg)
    | .ok (st', batches) =>
      if batches.isEmpty then .fellThrough st' rst
      else
        .emitted st' { rst with statusCode := 400 }
          (.json (errorsValue batches.flatten))

/-- Construction-time behavior of `validate(schemas)`: the function body only
defines the middleware and its wrappers and attaches `schemas` / `handler` /
`use`; it contains no check or throw of its own, so construction always
succeeds and every misuse check fires inside the returned closures, per
request. -/
def validateConstruct (s : ValidationSchema) : Except String ValidationSchema :=
  .ok s

/-! ### Specification-side views of the field phase

These definitions follow the specification's words (independent per-field
attempts in the order headers, body, query, params, locals) and are compared
with `validateFields` in the theorems below. -/

/-- The normalized header object as the headers schema receives it. -/
def headersInput (st : ReqState) : Value := .obj (buildHeaderData st.headers)

/-- The issue batch one field contributes (empty unless its schema raises a
`ZodError`). -/
def fieldIssues (schema? : Option Schema) (input : Value) : List (List Issue) :=
  match schema? with
  | none => []
  | some schema =>
    match schema input with
    | .zodError issues => [issues]
    | _ => []

/-- Every field category's issue batches, each evaluated on its own input
from the untouched request, in field-category order. -/
def specFieldBatches (s : ValidationSchema) (st : ReqState) :
    List (List Issue) :=
  fieldIssues s.headers (headersInput st) ++ fieldIssues s.body st.body
    ++ fieldIssues s.query st.query ++ fieldIssues s.params st.params
    ++ fieldIssues s.locals st.locals

/-- The non-validation defect one field raises, if any. -/
def fieldThrow (schema? : Option Schema) (input : Value) : Option String :=
  match schema? with
  | none => none
  | some schema =>
    match schema input with
    | .thrown msg => some msg
    | _ => none

/-- The first non-validation defect across the five fields in field-category
order (the only short-circuit of the field phase). -/
def specFirstThrow (s : ValidationSchema) (st : ReqState) : Option String :=
  match fieldThrow s.headers (headersInput st) with
  | some m => some m
  | none =>
    match fieldThrow s.body st.body with
    | some m => some m
    | none =>
      match fieldThrow s.query st.query with
      | some m => some m
      | none =>
        match fieldThrow s.params st.params with
        | some m => some m
        | none => fieldThrow s.locals st.locals

/-- The state update one field performs: the validated value is written back
on success, nothing changes otherwise. -/
def fieldStep (schema? : Option Schema) (get : ReqState → Value)
    (set : ReqState → Value → ReqState) (st : ReqState) : ReqState :=
  match schema? with
  | none => st
  | some schema =>
    match schema (get st) with
    | .ok result => set st result
    | _ => st

/-- The request state after all five write-backs, in field order. -/
def fieldStepsAll (s : ValidationSchema) (st : ReqState) : ReqState :=
  fieldStep s.locals (fun st => st.locals) (fun st v => { st with locals := v })
    (fieldStep s.params (fun st => st.params) (fun st v => { st with params := v })
      (fieldStep s.query (fun st => st.query) (fun st v => { st with query := v })
        (fieldStep s.body (fun st => st.body) (fun st v => { st with body := v })
          (fieldStep s.headers (fun st => .obj (buildHeaderData st.headers))
            (fun st v => { st with headers := mergeHeaders st.headers v }) st))))

/-! ### Concrete fixtures

Small concrete schemas, contracts and request/response states used to
evaluate the middleware on closed inputs. -/

/-- A schema accepting any value unchanged. -/
def schemaAnyOk : Schema := fun v => .ok v

/-- The issue zod raises for a missing required `message` member. -/
def msgIssue : Issue := ⟨["message"], "Required", "invalid_type"⟩

/-- A schema for objects with exactly a string `message` member. -/
def schemaMsg : Schema := fun v =>
  match v with
  | .obj [("message", .str s)] => .ok (.obj [("message", .str s)])
  | _ => .zodError [msgIssue]

/-- A root-level issue. -/
def rootIssue : Issue := ⟨[], "always fails", "custom"⟩

/-- A schema rejecting every value. -/
def schemaReject : Schema := fun _ => .zodError [rootIssue]

/-- A schema whose transform throws a non-validation defect. -/
def schemaThrow : Schema := fun _ => .thrown "Body transform error"

/-- A coercing schema: whatever the wire form, the parsed value is the
number 42 (models a numeric-string to number coercion). -/
def schemaCoerceAge : Schema := fun _ => .ok (.num 42)

/-- Issue for a too-short name. -/
def nameIssue : Issue := ⟨["name"], "String must contain at least 3 characters", "too_small"⟩

/-- A body schema failing with the name issue. -/
def schemaNameBad : Schema := fun _ => .zodError [nameIssue]

/-- Issue for a too-small age. -/
def ageIssue : Issue := ⟨["age"], "Number must be greater than or equal to 18", "too_small"⟩

/-- A query schema failing with the age issue. -/
def schemaAgeBad : Schema := fun _ => .zodError [ageIssue]

/-- A headers schema validating to one lowercased member. -/
def schemaHdr : Schema := fun _ => .ok (.obj [("api-key", .str "secret")])

/-- A request with no interesting data. -/
def reqEmpty : ReqState := ⟨[], .obj [], .obj [], .obj [], .obj []⟩

/-- A request carrying a plain header, a multi-valued header and an
`undefined` header. -/
def reqHdr : ReqState :=
  ⟨[("API-Key", .str "secret"), ("Accept", .arr [.str "a1", .str "a2"]),
    ("X-Null", .undef)], .obj [], .obj [], .obj [], .obj []⟩

/-- A request whose body is the numeric string to be coerced. -/
def reqCoerce : ReqState := ⟨[], .str "42", .obj [], .obj [], .obj []⟩

/-- A fresh response state (status 200, no content type). -/
def resA : ResState := {}

/-- A response state whose declared content type is JSON. -/
def resJson : ResState := { statusCode := 200, contentType := some "application/json" }

/-- A typed map with schemas for 200 and 404. -/
def typedMap1 : List (Nat × Schema) := [(200, schemaMsg), (404, schemaAnyOk)]

/-- A typed-mode contract over `typedMap1`. -/
def sTyped1 : ValidationSchema := { useResponse := some typedMap1 }

/-- A typed-mode contract used for the misuse guard. -/
def guardSchema : ValidationSchema := { useResponse := some [(200, schemaMsg)] }

/-- A simple-mode contract whose response schema rejects everything. -/
def simpleModeSchema : ValidationSchema := { response := some schemaReject }

/-- The body the handler emits in the simple-mode scenario. -/
def emittedBody : Value := .obj [("ok", .bool true)]

/-- A contract with failing body and query schemas. -/
def sAgg : ValidationSchema := { body := some schemaNameBad, query := some schemaAgeBad }

/-- A contract whose body schema throws and whose query schema would fail. -/
def sThrowContract : ValidationSchema :=
  { body := some schemaThrow, query := some schemaReject }

/-- A contract with a coercing body schema. -/
def sCoerce : ValidationSchema := { body := some schemaCoerceAge }

/-- A contract with only a headers schema. -/
def sHdrContract : ValidationSchema := { headers := some schemaHdr }

/-- A typed-mode contract with a failing body schema and a 400 schema that
rejects everything. -/
def sReq400 : ValidationSchema :=
  { body := some schemaNameBad, useResponse := some [(400, schemaReject)] }

/-- A typed map with only a 200 schema (no 400 entry). -/
def sTypedNo400 : ValidationSchema := { useResponse := some [(200, schemaMsg)] }

/-- A typed map with a 200 schema and a permissive 400 schema. -/
def sTypedWith400 : ValidationSchema :=
  { useResponse := some [(200, schemaMsg), (400, schemaAnyOk)] }

/-- The JSON content type as express reports it. -/
def jsonCt : String := "application/json; charset=utf-8"

/-! ### Round-trip of the JSON codec

`jsonParse` recovers exactly the value `jsonStringify` serialized, for every
`undefined`-free value. This backs the re-serialization policy of the `send`
interception: the wire payload decodes to the validated value. -/

/-- Input whose first character, if any, is not a digit (so a decimal number
parse cannot overrun into it). -/
def nonDigitStart : List Char → Bool
  | [] => true
  | c :: _ => !c.isDigit

mutual

/-- Fuel needed by `parseVal` on the serialization of a value. -/
def cost : Value → Nat
  | .null => 1
  | .undef => 1
  | .bool _ => 1
  | .num _ => 1
  | .str _ => 1
  | .arr es => 1 + costElemsF es
  | .obj fs => 1 + costMembersF fs

def costElemsF : List Value → Nat
  | [] => 1
  | v :: vs => 1 + max (cost v) (costElemsF vs)

def costMembersF : List (String × Value) → Nat
  | [] => 1
  | p :: fs => 1 + max (cost p.2) (costMembersF fs)

end

theorem leVal_natDigitsRev (f : Nat) : ∀ n, n ≤ f → leVal (natDigitsRev f n) = n := by
  induction f with
  | zero =>
    intro n hn
    interval_cases n
    simp [natDigitsRev, leVal]
  | succ f ih =>
    intro n hn
    match n with
    | 0 => simp [natDigitsRev, leVal]
    | m + 1 =>
      have hdiv : (m + 1) / 10 ≤ f := by
        have h1 : (m + 1) / 10 < m + 1 := Nat.div_lt_self (Nat.succ_pos m) (by omega)
        omega
      simp only [natDigitsRev, leVal, ih _ hdiv]
      omega

theorem natDigitsRev_lt (f : Nat) : ∀ n d, d ∈ natDigitsRev f n → d < 10 := by
  induction f with
  | zero => intro n d hd; simp [natDigitsRev] at hd
  | succ f ih =>
    intro n d hd
    match n with
    | 0 => simp [natDigitsRev] at hd
    | m + 1 =>
      simp only [natDigitsRev, List.mem_cons] at hd
      rcases hd with h | h
      · omega
      · exact ih _ _ h

theorem digitVal_digitChar (d : Nat) (hd : d < 10) : digitVal (digitChar d) = d := by
  interval_cases d <;> decide

theorem digitChar_isDigit (d : Nat) (hd : d < 10) : (digitChar d).isDigit = true := by
  interval_cases d <;> decide

theorem printNat_isDigit (n : Nat) : ∀ c ∈ printNat n, c.isDigit = true := by
  intro c hc
  unfold printNat at hc
  split at hc
  · simp at hc
    subst hc
    decide
  · simp only [List.mem_map, List.mem_reverse] at hc
    obtain ⟨d, hd, rfl⟩ := hc
    exact digitChar_isDigit d (natDigitsRev_lt n n d hd)

theorem printNat_ne_nil (n : Nat) : printNat n ≠ [] := by
  unfold printNat
  split
  · simp
  · next h =>
    match hm : n, h with
    | m + 1, _ =>
      simp [natDigitsRev]

theorem takeDigits_append (ds : List Char) (hds : ∀ c ∈ ds, c.isDigit = true)
    (rest : List Char) (hrest : nonDigitStart rest = true) :
    takeDigits (ds ++ rest) = (ds, rest) := by
  induction ds with
  | nil =>
    match rest with
    | [] => rfl
    | c :: t =>
      simp only [nonDigitStart, Bool.not_eq_true'] at hrest
      simp [takeDigits, hrest]
  | cons c ds ih =>
    have hc : c.isDigit = true := hds c (by simp)
    have ih' := ih (fun c hc => hds c (by simp [hc]))
    simp only [List.cons_append, takeDigits, hc, if_true, List.append_eq, ih']

theorem map_digitVal_printNat (n : Nat) :
    leVal (((printNat n).map digitVal).reverse) = n := by
  unfold printNat
  split
  · next h => subst h; decide
  · rw [List.map_map, List.map_reverse]
    have hmap : (natDigitsRev n n).map (digitVal ∘ digitChar) = natDigitsRev n n := by
      conv_rhs => rw [← List.map_id (natDigitsRev n n)]
      apply List.map_congr_left
      intro d hd
      exact digitVal_digitChar d (natDigitsRev_lt n n d hd)
    rw [hmap, List.reverse_reverse, leVal_natDigitsRev n n le_rfl]

theorem parseNum_printNat (n : Nat) (rest : List Char)
    (hrest : nonDigitStart rest = true) :
    parseNum (printNat n ++ rest) = .ok (n, rest) := by
  unfold parseNum
  rw [takeDigits_append (printNat n) (printNat_isDigit n) rest hrest]
  obtain ⟨c, t, hct⟩ : ∃ c t, printNat n = c :: t := by
    match h : printNat n with
    | [] => exact absurd h (printNat_ne_nil n)
    | c :: t => exact ⟨c, t, rfl⟩
  rw [hct]
  simp only []
  rw [← hct, map_digitVal_printNat n]

theorem parseStrBody_escape (cs : List Char) (rest : List Char) :
    parseStrBody (escapeList cs ++ '"' :: rest) = .ok (cs, rest) := by
  induction cs with
  | nil =>
    show parseStrBody (escapeList [] ++ '"' :: rest) = .ok ([], rest)
    have h0 : escapeList [] = [] := rfl
    rw [h0, List.nil_append]
    unfold parseStrBody
    rw [if_pos rfl]
  | cons c cs ih =>
    by_cases hc : c = '"' ∨ c = '\\'
    · have hesc : escapeList (c :: cs) ++ '"' :: rest
          = '\\' :: c :: (escapeList cs ++ '"' :: rest) := by
        simp [escapeList, escapeChar, hc]
      rw [hesc]
      unfold parseStrBody
      rw [if_neg (by decide : ¬ ('\\' : Char) = '"'), if_pos rfl]
      simp only [ih]
    · push_neg at hc
      have hesc : escapeList (c :: cs) ++ '"' :: rest
          = c :: (escapeList cs ++ '"' :: rest) := by
        simp [escapeList, escapeChar, hc.1, hc.2]
      rw [hesc]
      unfold parseStrBody
      rw [if_neg hc.1, if_neg hc.2]
      simp only [ih]

theorem isDigit_ne (c : Char) (h : c.isDigit = true) (d : Char)
    (hd : d.isDigit = false) : c ≠ d := by
  intro he
  subst he
  rw [h] at hd
  exact Bool.noConfusion hd

theorem printVal_head (v : Value) :
    ∃ c t, printVal v = c :: t ∧ c ≠ ']' := by
  match v with
  | .null => exact ⟨'n', _, rfl, by decide⟩
  | .undef => exact ⟨'n', _, rfl, by decide⟩
  | .bool true => exact ⟨'t', _, rfl, by decide⟩
  | .bool false => exact ⟨'f', _, rfl, by decide⟩
  | .str s => exact ⟨'"', _, rfl, by decide⟩
  | .arr es => exact ⟨'[', _, rfl, by decide⟩
  | .obj fs => exact ⟨'{', _, rfl, by decide⟩
  | .num (.negSucc m) => exact ⟨'-', _, rfl, by decide⟩
  | .num (.ofNat n) =>
    obtain ⟨c, t, hct⟩ : ∃ c t, printNat n = c :: t := by
      match h : printNat n with
      | [] => exact absurd h (printNat_ne_nil n)
      | c :: t => exact ⟨c, t, rfl⟩
    refine ⟨c, t, hct, ?_⟩
    have hc : c.isDigit = true := printNat_isDigit n c (by rw [hct]; simp)
    exact isDigit_ne c hc ']' (by decide)

mutual

theorem cost_le : (v : Value) → cost v ≤ (printVal v).length + 1
  | .null => by simp [cost, printVal]
  | .undef => by simp [cost, printVal]
  | .bool true => by simp [cost, printVal]
  | .bool false => by simp [cost, printVal]
  | .num n => by simp [cost, printVal]
  | .str s => by simp [cost, printVal]
  | .arr es => by
    have h := costElems_le es
    simp only [cost, printVal, List.length_append, List.length_cons]
    omega
  | .obj fs => by
    have h := costMembers_le fs
    simp only [cost, printVal, List.length_append, List.length_cons]
    omega

theorem costElems_le : (vs : List Value) → costElemsF vs ≤ (printElems vs).length + 2
  | [] => by simp [costElemsF, printElems]
  | [v] => by
    have h := cost_le v
    simp only [costElemsF, costElemsF, printElems, List.length_nil]
    omega
  | v :: v2 :: vs => by
    have h1 := cost_le v
    have h2 := costElems_le (v2 :: vs)
    simp only [costElemsF, printElems, List.length_append, List.length_cons] at h2 ⊢
    omega

theorem costMembers_le :
    (fs : List (String × Value)) → costMembersF fs ≤ (printMembers fs).length + 2
  | [] => by simp [costMembersF, printMembers]
  | [p] => by
    have h := cost_le p.2
    simp only [costMembersF, costMembersF, printMembers, List.length_append,
      List.length_cons, List.length_nil]
    omega
  | p :: p2 :: fs => by
    have h1 := cost_le p.2
    have h2 := costMembers_le (p2 :: fs)
    simp only [costMembersF, printMembers, List.length_append, List.length_cons] at h2 ⊢
    omega

end

theorem cost_pos : (v : Value) → 1 ≤ cost v
  | .null => le_refl 1
  | .undef => le_refl 1
  | .bool _ => le_refl 1
  | .num _ => le_refl 1
  | .str _ => le_refl 1
  | .arr es => by simp [cost]
  | .obj fs => by simp [cost]

theorem expectLit_append (lit rest : List Char) (v : Value) :
    expectLit lit (lit ++ rest) v = .ok (v, rest) := by
  unfold expectLit
  rw [if_pos (List.isPrefixOf_iff_prefix.mpr (List.prefix_append lit rest))]
  rw [List.drop_left]

mutual

theorem parseVal_print : (v : Value) → noUndef v = true → (f : Nat) →
    cost v ≤ f + 1 → (rest : List Char) → nonDigitStart rest = true →
    parseVal (f + 1) (printVal v ++ rest) = .ok (v, rest)
  | .null, _, f, _, rest, _ => by
    show parseVal (f + 1) ('n' :: 'u' :: 'l' :: 'l' :: rest) = .ok (.null, rest)
    unfold parseVal
    simp only [Char.reduceEq, reduceIte]
    exact expectLit_append "ull".data rest .null
  | .undef, h, f, _, rest, _ => by simp [noUndef] at h
  | .bool true, _, f, _, rest, _ => by
    show parseVal (f + 1) ('t' :: 'r' :: 'u' :: 'e' :: rest) = .ok (.bool true, rest)
    unfold parseVal
    simp only [Char.reduceEq, reduceIte]
    exact expectLit_append "rue".data rest (.bool true)
  | .bool false, _, f, _, rest, _ => by
    show parseVal (f + 1) ('f' :: 'a' :: 'l' :: 's' :: 'e' :: rest) = .ok (.bool false, rest)
    unfold parseVal
    simp only [Char.reduceEq, reduceIte]
    exact expectLit_append "alse".data rest (.bool false)
  | .str s, _, f, _, rest, _ => by
    have hre : printVal (.str s) ++ rest = '"' :: (escapeList s.data ++ '"' :: rest) := by
      simp [printVal, printStr]
    rw [hre]
    unfold parseVal
    simp only [Char.reduceEq, reduceIte]
    rw [parseStrBody_escape]
  | .num (.ofNat n), _, f, _, rest, hrest => by
    obtain ⟨c, t, hct⟩ : ∃ c t, printNat n = c :: t := by
      match h : printNat n with
      | [] => exact absurd h (printNat_ne_nil n)
      | c :: t => exact ⟨c, t, rfl⟩
    have hdig : c.isDigit = true := printNat_isDigit n c (by rw [hct]; simp)
    have hre : printVal (.num (.ofNat n)) ++ rest = c :: (t ++ rest) := by
      simp [printVal, printInt, hct]
    rw [hre]
    unfold parseVal
    simp only []
    rw [if_neg (isDigit_ne c hdig 'n' (by decide)),
      if_neg (isDigit_ne c hdig 't' (by decide)),
      if_neg (isDigit_ne c hdig 'f' (by decide)),
      if_neg (isDigit_ne c hdig '"' (by decide)),
      if_neg (isDigit_ne c hdig '[' (by decide)),
      if_neg (isDigit_ne c hdig '{' (by decide)),
      if_neg (isDigit_ne c hdig '-' (by decide)), if_pos hdig]
    have hfold : c :: (t ++ rest) = printNat n ++ rest := by rw [hct]; simp
    rw [hfold, parseNum_printNat n rest hrest]
  | .num (.negSucc m), _, f, _, rest, hrest => by
    have hre : printVal (.num (.negSucc m)) ++ rest = '-' :: (printNat (m + 1) ++ rest) := by
      simp [printVal, printInt]
    rw [hre]
    unfold parseVal
    simp only [Char.reduceEq, reduceIte]
    rw [parseNum_printNat (m + 1) rest hrest]
    have hneg : -((m + 1 : Nat) : Int) = Int.negSucc m := by
      rw [Int.negSucc_eq]
      push_cast
      ring
    simp only [hneg]
  | .arr es, h, f, hf, rest, hrest => by
    have hnu : noUndefList es = true := by simpa [noUndef] using h
    have hcost : costElemsF es ≤ f := by
      have := hf
      simp only [cost] at this
      omega
    have hre : printVal (.arr es) ++ rest = '[' :: (printElems es ++ ']' :: rest) := by
      simp [printVal]
    rw [hre]
    unfold parseVal
    simp only [Char.reduceEq, reduceIte]
    rw [parseElems_print es hnu f hcost rest hrest]
  | .obj fs, h, f, hf, rest, hrest => by
    have hnu : noUndefFields fs = true := by simpa [noUndef] using h
    have hcost : costMembersF fs ≤ f := by
      have := hf
      simp only [cost] at this
      omega
    have hre : printVal (.obj fs) ++ rest = '{' :: (printMembers fs ++ '}' :: rest) := by
      simp [printVal]
    rw [hre]
    unfold parseVal
    simp only [Char.reduceEq, reduceIte]
    rw [parseMembers_print fs hnu f hcost rest hrest]

theorem parseElems_print : (vs : List Value) → noUndefList vs = true → (f : Nat) →
    costElemsF vs ≤ f → (rest : List Char) → nonDigitStart rest = true →
    parseElems f (printElems vs ++ ']' :: rest) = .ok (vs, rest)
  | [], _, f, hf, rest, _ => by
    obtain ⟨f, rfl⟩ : ∃ g, f = g + 1 := by
      refine ⟨f - 1, ?_⟩
      simp only [costElemsF] at hf
      omega
    show parseElems (f + 1) (']' :: rest) = .ok ([], rest)
    unfold parseElems
    simp only [Char.reduceEq, reduceIte]
  | [v], hnu, f, hf, rest, hrest => by
    have hnuv : noUndef v = true := by
      simp only [noUndefList, Bool.and_eq_true] at hnu
      exact hnu.1
    obtain ⟨g, rfl⟩ : ∃ g, f = g + 1 + 1 := by
      refine ⟨f - 2, ?_⟩
      have h1 := cost_pos v
      simp only [costElemsF] at hf
      omega
    have hcv : cost v ≤ g + 1 := by
      simp only [costElemsF] at hf
      omega
    obtain ⟨c, t, hct, hcr⟩ := printVal_head v
    have hre : printElems [v] ++ ']' :: rest = c :: (t ++ ']' :: rest) := by
      simp [printElems, hct]
    rw [hre]
    unfold parseElems
    simp only []
    rw [if_neg hcr]
    have hfold : c :: (t ++ ']' :: rest) = printVal v ++ ']' :: rest := by
      rw [hct]; simp
    rw [hfold, parseVal_print v hnuv g hcv (']' :: rest) rfl]
    simp only []
  | v :: v2 :: vs, hnu, f, hf, rest, hrest => by
    have hnuv : noUndef v = true := by
      simp only [noUndefList, Bool.and_eq_true] at hnu
      exact hnu.1
    have hnuvs : noUndefList (v2 :: vs) = true := by
      simp only [noUndefList, Bool.and_eq_true] at hnu ⊢
      exact ⟨hnu.2.1, hnu.2.2⟩
    obtain ⟨g, rfl⟩ : ∃ g, f = g + 1 + 1 := by
      refine ⟨f - 2, ?_⟩
      have h1 := cost_pos v
      simp only [costElemsF] at hf
      omega
    have hcv : cost v ≤ g + 1 := by
      simp only [costElemsF] at hf
      omega
    have hcvs : costElemsF (v2 :: vs) ≤ g + 1 := by
      simp only [costElemsF] at hf ⊢
      omega
    obtain ⟨c, t, hct, hcr⟩ := printVal_head v
    have hre : printElems (v :: v2 :: vs) ++ ']' :: rest
        = c :: (t ++ ',' :: (printElems (v2 :: vs) ++ ']' :: rest)) := by
      simp [printElems, hct]
    rw [hre]
    unfold parseElems
    simp only []
    rw [if_neg hcr]
    have hfold : c :: (t ++ ',' :: (printElems (v2 :: vs) ++ ']' :: rest))
        = printVal v ++ ',' :: (printElems (v2 :: vs) ++ ']' :: rest) := by
      rw [hct]; simp
    rw [hfold, parseVal_print v hnuv g hcv
      (',' :: (printElems (v2 :: vs) ++ ']' :: rest)) rfl]
    simp only []
    rw [parseElems_print (v2 :: vs) hnuvs (g + 1) hcvs rest hrest]

theorem parseMembers_print : (fs : List (String × Value)) → noUndefFields fs = true →
    (f : Nat) → costMembersF fs ≤ f → (rest : List Char) → nonDigitStart rest = true →
    parseMembers f (printMembers fs ++ '}' :: rest) = .ok (fs, rest)
  | [], _, f, hf, rest, _ => by
    obtain ⟨f, rfl⟩ : ∃ g, f = g + 1 := by
      refine ⟨f - 1, ?_⟩
      simp only [costMembersF] at hf
      omega
    show parseMembers (f + 1) ('}' :: rest) = .ok ([], rest)
    unfold parseMembers
    simp only [Char.reduceEq, reduceIte]
  | [(k, v)], hnu, f, hf, rest, hrest => by
    have hnuv : noUndef v = true := by
      simp only [noUndefFields, Bool.and_eq_true] at hnu
      exact hnu.1
    obtain ⟨g, rfl⟩ : ∃ g, f = g + 1 + 1 := by
      refine ⟨f - 2, ?_⟩
      have h1 := cost_pos v
      simp only [costMembersF] at hf
      omega
    have hcv : cost v ≤ g + 1 := by
      simp only [costMembersF] at hf
      omega
    have hre : printMembers [(k, v)] ++ '}' :: rest
        = '"' :: (escapeList k.data ++ '"' :: (':' :: (printVal v ++ '}' :: rest))) := by
      simp [printMembers, printStr]
    rw [hre]
    unfold parseMembers
    simp only [Char.reduceEq, reduceIte]
    rw [parseStrBody_escape]
    simp only []
    rw [parseVal_print v hnuv g hcv ('}' :: rest) rfl]
    simp only []
  | (k, v) :: p2 :: fs, hnu, f, hf, rest, hrest => by
    have hnuv : noUndef v = true := by
      simp only [noUndefFields, Bool.and_eq_true] at hnu
      exact hnu.1
    have hnufs : noUndefFields (p2 :: fs) = true := by
      simp only [noUndefFields, Bool.and_eq_true] at hnu ⊢
      exact ⟨hnu.2.1, hnu.2.2⟩
    obtain ⟨g, rfl⟩ : ∃ g, f = g + 1 + 1 := by
      refine ⟨f - 2, ?_⟩
      have h1 := cost_pos v
      simp only [costMembersF] at hf
      omega
    have hcv : cost v ≤ g + 1 := by
      simp only [costMembersF] at hf
      omega
    have hcfs : costMembersF (p2 :: fs) ≤ g + 1 := by
      simp only [costMembersF] at hf ⊢
      omega
    have hre : printMembers ((k, v) :: p2 :: fs) ++ '}' :: rest
        = '"' :: (escapeList k.data ++ '"' ::
            (':' :: (printVal v ++ ',' :: (printMembers (p2 :: fs) ++ '}' :: rest)))) := by
      simp [printMembers, printStr]
    rw [hre]
    unfold parseMembers
    simp only [Char.reduceEq, reduceIte]
    rw [parseStrBody_escape]
    simp only []
    rw [parseVal_print v hnuv g hcv
      (',' :: (printMembers (p2 :: fs) ++ '}' :: rest)) rfl]
    simp only []
    rw [parseMembers_print (p2 :: fs) hnufs (g + 1) hcfs rest hrest]

end

/-- The JSON codec round-trips: parsing the serialization of any
`undefined`-free value recovers the value exactly. -/
theorem jsonParse_jsonStringify (v : Value) (hnu : noUndef v = true) (s : String)
    (hs : jsonStringify v = some s) : jsonParse s = .ok v := by
  have hseq : s = String.mk (printVal v) := by
    unfold jsonStringify at hs
    match v, hs with
    | .null, hs => exact (Option.some_inj.mp hs).symm
    | .bool b, hs => exact (Option.some_inj.mp hs).symm
    | .num n, hs => exact (Option.some_inj.mp hs).symm
    | .str s', hs => exact (Option.some_inj.mp hs).symm
    | .arr es, hs => exact (Option.some_inj.mp hs).symm
    | .obj fs, hs => exact (Option.some_inj.mp hs).symm
  subst hseq
  unfold jsonParse
  have hlen : (String.mk (printVal v)).length = (printVal v).length := rfl
  have hdata : (String.mk (printVal v)).data = printVal v := rfl
  rw [hlen, hdata]
  have hcost : cost v ≤ (printVal v).length + 1 := cost_le v
  have hmain := parseVal_print v hnu (printVal v).length hcost [] (by decide)
  rw [List.append_nil] at hmain
  rw [hmain]

/-! ### Normal form of the field-validation phase -/

theorem runField_eq (o : Option Schema) (g : ReqState → Value)
    (set : ReqState → Value → ReqState) (st : ReqState) (errs : List (List Issue)) :
    runField o g set (st, errs) =
      match fieldThrow o (g st) with
      | some m => .error (m, st)
      | none => .ok (fieldStep o g set st, errs ++ fieldIssues o (g st)) := by
  match o with
  | none => simp [runField, fieldThrow, fieldStep, fieldIssues]
  | some sch =>
    match h : sch (g st) with
    | .ok r => simp [runField, fieldThrow, fieldStep, fieldIssues, h]
    | .zodError is => simp [runField, fieldThrow, fieldStep, fieldIssues, h]
    | .thrown m => simp [runField, fieldThrow, fieldStep, fieldIssues, h]

theorem fieldStep_headers_proj (o : Option Schema) (g : ReqState → Value)
    (st : ReqState) :
    (fieldStep o g (fun st v => { st with headers := mergeHeaders st.headers v }) st).body
        = st.body
    ∧ (fieldStep o g (fun st v => { st with headers := mergeHeaders st.headers v }) st).query
        = st.query
    ∧ (fieldStep o g (fun st v => { st with headers := mergeHeaders st.headers v }) st).params
        = st.params
    ∧ (fieldStep o g (fun st v => { st with headers := mergeHeaders st.headers v }) st).locals
        = st.locals := by
  match o with
  | none => simp [fieldStep]
  | some sch =>
    match h : sch (g st) with
    | .ok r => simp [fieldStep, h]
    | .zodError is => simp [fieldStep, h]
    | .thrown m => simp [fieldStep, h]

theorem fieldStep_body_proj (o : Option Schema) (g : ReqState → Value)
    (st : ReqState) :
    (fieldStep o g (fun st v => { st with body := v }) st).headers = st.headers
    ∧ (fieldStep o g (fun st v => { st with body := v }) st).query = st.query
    ∧ (fieldStep o g (fun st v => { st with body := v }) st).params = st.params
    ∧ (fieldStep o g (fun st v => { st with body := v }) st).locals = st.locals := by
  match o with
  | none => simp [fieldStep]
  | some sch =>
    match h : sch (g st) with
    | .ok r => simp [fieldStep, h]
    | .zodError is => simp [fieldStep, h]
    | .thrown m => simp [fieldStep, h]

theorem fieldStep_query_proj (o : Option Schema) (g : ReqState → Value)
    (st : ReqState) :
    (fieldStep o g (fun st v => { st with query := v }) st).headers = st.headers
    ∧ (fieldStep o g (fun st v => { st with query := v }) st).body = st.body
    ∧ (fieldStep o g (fun st v => { st with query := v }) st).params = st.params
    ∧ (fieldStep o g (fun st v => { st with query := v }) st).locals = st.locals := by
  match o with
  | none => simp [fieldStep]
  | some sch =>
    match h : sch (g st) with
    | .ok r => simp [fieldStep, h]
    | .zodError is => simp [fieldStep, h]
    | .thrown m => simp [fieldStep, h]

theorem fieldStep_params_proj (o : Option Schema) (g : ReqState → Value)
    (st : ReqState) :
    (fieldStep o g (fun st v => { st with params := v }) st).headers = st.headers
    ∧ (fieldStep o g (fun st v => { st with params := v }) st).body = st.body
    ∧ (fieldStep o g (fun st v => { st with params := v }) st).query = st.query
    ∧ (fieldStep o g (fun st v => { st with params := v }) st).locals = st.locals := by
  match o with
  | none => simp [fieldStep]
  | some sch =>
    match h : sch (g st) with
    | .ok r => simp [fieldStep, h]
    | .zodError is => simp [fieldStep, h]
    | .thrown m => simp [fieldStep, h]

theorem fieldStep_locals_proj (o : Option Schema) (g : ReqState → Value)
    (st : ReqState) :
    (fieldStep o g (fun st v => { st with locals := v }) st).headers = st.headers
    ∧ (fieldStep o g (fun st v => { st with locals := v }) st).body = st.body
    ∧ (fieldStep o g (fun st v => { st with locals := v }) st).query = st.query
    ∧ (fieldStep o g (fun st v => { st with locals := v }) st).params = st.params := by
  match o with
  | none => simp [fieldStep]
  | some sch =>
    match h : sch (g st) with
    | .ok r => simp [fieldStep, h]
    | .zodError is => simp [fieldStep, h]
    | .thrown m => simp [fieldStep, h]

/-- The field phase either rethrows exactly the first non-validation defect,
or completes with the per-field write-backs applied and the issue batches of
every field category, in field-category order. -/
theorem validateFields_cases (s : ValidationSchema) (st : ReqState) :
    (∃ m stE, validateFields s st = .error (m, stE) ∧ specFirstThrow s st = some m)
    ∨ (validateFields s st = .ok (fieldStepsAll s st, specFieldBatches s st)
        ∧ specFirstThrow s st = none) := by
  unfold validateFields
  rw [runField_eq]
  cases h1 : fieldThrow s.headers ((fun st => Value.obj (buildHeaderData st.headers)) st) with
  | some m =>
    left
    refine ⟨m, st, by simp [Bind.bind, Except.bind], ?_⟩
    unfold specFirstThrow
    rw [show headersInput st = Value.obj (buildHeaderData st.headers) from rfl, h1]
  | none =>
    simp only [Bind.bind, Except.bind]
    have hp1 := fieldStep_headers_proj s.headers
      (fun st => Value.obj (buildHeaderData st.headers)) st
    rw [runField_eq]
    rw [show (fieldStep s.headers (fun st => Value.obj (buildHeaderData st.headers))
      (fun st v => { st with headers := mergeHeaders st.headers v }) st).body = st.body
      from hp1.1]
    cases h2 : fieldThrow s.body st.body with
    | some m =>
      left
      refine ⟨m, _, rfl, ?_⟩
      unfold specFirstThrow
      rw [show headersInput st = Value.obj (buildHeaderData st.headers) from rfl, h1, h2]
    | none =>
      simp only []
      rw [runField_eq]
      rw [show (fieldStep s.body (fun st => st.body) (fun st v => { st with body := v })
        (fieldStep s.headers (fun st => Value.obj (buildHeaderData st.headers))
          (fun st v => { st with headers := mergeHeaders st.headers v }) st)).query
        = st.query by rw [(fieldStep_body_proj _ _ _).2.1, hp1.2.1]]
      cases h3 : fieldThrow s.query st.query with
      | some m =>
        left
        refine ⟨m, _, rfl, ?_⟩
        unfold specFirstThrow
        rw [show headersInput st = Value.obj (buildHeaderData st.headers) from rfl,
          h1, h2, h3]
      | none =>
        simp only []
        rw [runField_eq]
        rw [show (fieldStep s.query (fun st => st.query) (fun st v => { st with query := v })
          (fieldStep s.body (fun st => st.body) (fun st v => { st with body := v })
            (fieldStep s.headers (fun st => Value.obj (buildHeaderData st.headers))
              (fun st v => { st with headers := mergeHeaders st.headers v }) st))).params
          = st.params by
            rw [(fieldStep_query_proj _ _ _).2.2.1, (fieldStep_body_proj _ _ _).2.2.1,
              hp1.2.2.1]]
        cases h4 : fieldThrow s.params st.params with
        | some m =>
          left
          refine ⟨m, _, rfl, ?_⟩
          unfold specFirstThrow
          rw [show headersInput st = Value.obj (buildHeaderData st.headers) from rfl,
            h1, h2, h3, h4]
        | none =>
          simp only []
          rw [runField_eq]
          rw [show (fieldStep s.params (fun st => st.params)
            (fun st v => { st with params := v })
            (fieldStep s.query (fun st => st.query) (fun st v => { st with query := v })
              (fieldStep s.body (fun st => st.body) (fun st v => { st with body := v })
                (fieldStep s.headers (fun st => Value.obj (buildHeaderData st.headers))
                  (fun st v => { st with headers := mergeHeaders st.headers v }) st)))).locals
            = st.locals by
              rw [(fieldStep_params_proj _ _ _).2.2.2, (fieldStep_query_proj _ _ _).2.2.2,
                (fieldStep_body_proj _ _ _).2.2.2, hp1.2.2.2]]
          cases h5 : fieldThrow s.locals st.locals with
          | some m =>
            left
            refine ⟨m, _, rfl, ?_⟩
            unfold specFirstThrow
            rw [show headersInput st = Value.obj (buildHeaderData st.headers) from rfl,
              h1, h2, h3, h4, h5]
          | none =>
            right
            constructor
            · simp only []
              unfold fieldStepsAll specFieldBatches
              rw [show headersInput st = Value.obj (buildHeaderData st.headers) from rfl]
              simp [List.append_assoc]
            · unfold specFirstThrow
              rw [show headersInput st = Value.obj (buildHeaderData st.headers) from rfl,
                h1, h2, h3, h4, h5]

theorem validateFields_ok_spec (s : ValidationSchema) (st st' : ReqState)
    (batches : List (List Issue)) (h : validateFields s st = .ok (st', batches)) :
    batches = specFieldBatches s st ∧ st' = fieldStepsAll s st := by
  rcases validateFields_cases s st with ⟨m, stE, he, _⟩ | ⟨hok, _⟩
  · rw [he] at h
    exact absurd h (by simp)
  · rw [hok] at h
    have h2 := Except.ok.inj h
    exact ⟨(congrArg Prod.snd h2).symm, (congrArg Prod.fst h2).symm⟩

theorem validateFields_throw (s : ValidationSchema) (st : ReqState) (m : String)
    (h : specFirstThrow s st = some m) :
    ∃ stE, validateFields s st = .error (m, stE) := by
  rcases validateFields_cases s st with ⟨m', stE, he, hsp⟩ | ⟨_, hsp⟩
  · rw [h] at hsp
    exact ⟨stE, (Option.some_inj.mp hsp) ▸ he⟩
  · rw [h] at hsp
    exact absurd hsp (by simp)

/-! ### JS object lookup lemmas -/

theorem lookup_map_keep (l : List (String × Value)) (k k' : String) (v : Value)
    (h : k ≠ k') :
    (l.map (fun p => if p.1 == k' then (k', v) else p)).lookup k = l.lookup k := by
  induction l with
  | nil => rfl
  | cons p t ih =>
    obtain ⟨pk, pv⟩ := p
    by_cases ha : pk = k'
    · subst ha
      simp only [List.map_cons, beq_self_eq_true, if_true, List.lookup_cons,
        beq_eq_false_iff_ne.mpr h, ih]
    · have hb : (pk == k') = false := beq_eq_false_iff_ne.mpr ha
      simp only [List.map_cons, hb, Bool.false_eq_true, if_false, List.lookup_cons]
      cases hkp : (k == pk) with
      | true => simp only [hkp, if_true]
      | false => simp only [hkp, Bool.false_eq_true, if_false]; exact ih

theorem lookup_append_single_ne (l : List (String × Value)) (k k' : String)
    (v : Value) (h : k ≠ k') : (l ++ [(k', v)]).lookup k = l.lookup k := by
  induction l with
  | nil =>
    simp [List.lookup_cons, beq_eq_false_iff_ne.mpr h]
  | cons p t ih =>
    obtain ⟨pk, pv⟩ := p
    simp only [List.cons_append, List.lookup_cons]
    cases hkp : (k == pk) with
    | true => simp only [hkp, if_true]
    | false => simp only [hkp, Bool.false_eq_true, if_false]; exact ih

theorem lookup_objSet_ne (l : List (String × Value)) (k k' : String) (v : Value)
    (h : k ≠ k') : (objSet l k' v).lookup k = l.lookup k := by
  unfold objSet
  by_cases hany : l.any (fun p => p.1 == k') = true
  · rw [if_pos hany]
    exact lookup_map_keep l k k' v h
  · rw [if_neg hany]
    exact lookup_append_single_ne l k k' v h

theorem lookup_objAssign_none (src : List (String × Value)) :
    ∀ (tgt : List (String × Value)) (k : String), src.lookup k = none →
    (objAssign tgt src).lookup k = tgt.lookup k := by
  induction src with
  | nil => intro tgt k _; rfl
  | cons p t ih =>
    intro tgt k h
    simp only [List.lookup] at h
    cases hkp : k == p.1 with
    | true => rw [hkp] at h; exact absurd h (by simp)
    | false =>
      rw [hkp] at h
      have hstep : objAssign tgt (p :: t) = objAssign (objSet tgt p.1 p.2) t := rfl
      rw [hstep, ih (objSet tgt p.1 p.2) k h,
        lookup_objSet_ne tgt k p.1 p.2 (by simpa using hkp)]

theorem mem_objSet (l : List (String × Value)) (k : String) (v : Value)
    (q : String × Value) (h : q ∈ objSet l k v) : q ∈ l ∨ q = (k, v) := by
  unfold objSet at h
  by_cases hany : l.any (fun p => p.1 == k) = true
  · rw [if_pos hany] at h
    obtain ⟨p, hp, he⟩ := List.mem_map.mp h
    by_cases hpk : p.1 = k
    · right
      rw [← he]
      simp [hpk]
    · left
      rw [← he]
      simpa [beq_eq_false_iff_ne.mpr hpk] using hp
  · rw [if_neg hany] at h
    rcases List.mem_append.mp h with h1 | h1
    · exact Or.inl h1
    · exact Or.inr (by simpa using h1)

theorem mem_objAssign (src : List (String × Value)) :
    ∀ (tgt : List (String × Value)) (q : String × Value),
    q ∈ objAssign tgt src → q ∈ tgt ∨ q ∈ src := by
  induction src with
  | nil => intro tgt q h; exact Or.inl h
  | cons p t ih =>
    intro tgt q h
    have hstep : objAssign tgt (p :: t) = objAssign (objSet tgt p.1 p.2) t := rfl
    rw [hstep] at h
    rcases ih (objSet tgt p.1 p.2) q h with h1 | h1
    · rcases mem_objSet tgt p.1 p.2 q h1 with h2 | h2
      · exact Or.inl h2
      · right
        rw [h2]
        simp
    · exact Or.inr (List.mem_cons_of_mem p h1)

theorem mem_buildHeaderData (hs : List (String × Value)) (p : String × Value)
    (h : p ∈ buildHeaderData hs) :
    ∃ q ∈ hs, p.1 = lowerStr q.1 ∧ p.2 = headerFirst q.2 := by
  unfold buildHeaderData objFromEntries at h
  rcases mem_objAssign _ [] p h with h1 | h1
  · exact absurd h1 (by simp)
  · obtain ⟨q, hq, he⟩ := List.mem_map.mp h1
    exact ⟨q, hq, by rw [← he], by rw [← he]⟩

/-! ### Normal forms of one middleware invocation -/

theorem runUse_err (s : ValidationSchema) (st stE : ReqState) (rst : ResState)
    (h : HandlerProg) (m : String)
    (hval : validateFields s st = .error (m, stE)) :
    runUse s st rst h = .errorChannel (.error m) := by
  unfold runUse
  rw [hval]

theorem runUse_ok (s : ValidationSchema) (st st' : ReqState) (rst : ResState)
    (h : HandlerProg)
    (hval : validateFields s st = .ok (st', [])) :
    runUse s st rst h =
      match
        (match s.useResponse with
         | some ur => runActTyped ur (applyType h rst) h.act
         | none => runActPlain (applyType h rst) h.act) with
      | .emitted rst' e => .emitted st' rst' e
      | .returned rst' => .noResponse st' rst'
      | .calledNext rst' => .fellThrough st' rst'
      | .threw rst' err => middlewareCatch s st' rst' err := by
  unfold runUse
  rw [hval]
  simp only [List.isEmpty_nil, if_true]

theorem runUse_badReq (s : ValidationSchema) (st st' : ReqState) (rst : ResState)
    (h : HandlerProg) (batches : List (List Issue))
    (hval : validateFields s st = .ok (st', batches)) (hne : batches ≠ []) :
    runUse s st rst h
      = .emitted st' { rst with statusCode := 400 }
          (.json (errorsValue batches.flatten)) := by
  unfold runUse
  rw [hval]
  simp only []
  rw [if_neg (by simp [List.isEmpty_iff, hne])]

theorem runDirect_err (s : ValidationSchema) (st stE : ReqState) (rst : ResState)
    (m : String) (hnr : s.useResponse = none)
    (hval : validateFields s st = .error (m, stE)) :
    runDirect s st rst = .errorChannel (.error m) := by
  unfold runDirect
  rw [hnr]
  simp only [Option.isSome_none, Bool.false_eq_true, if_false]
  rw [hval]

theorem runDirect_ok (s : ValidationSchema) (st st' : ReqState) (rst : ResState)
    (hnr : s.useResponse = none)
    (hval : validateFields s st = .ok (st', [])) :
    runDirect s st rst = .fellThrough st' rst := by
  unfold runDirect
  rw [hnr]
  simp only [Option.isSome_none, Bool.false_eq_true, if_false]
  rw [hval]
  simp only [List.isEmpty_nil, if_true]

theorem runDirect_badReq (s : ValidationSchema) (st st' : ReqState) (rst : ResState)
    (batches : List (List Issue)) (hnr : s.useResponse = none)
    (hval : validateFields s st = .ok (st', batches)) (hne : batches ≠ []) :
    runDirect s st rst
      = .emitted st' { rst with statusCode := 400 }
          (.json (errorsValue batches.flatten)) := by
  unfold runDirect
  rw [hnr]
  simp only [Option.isSome_none, Bool.false_eq_true, if_false]
  rw [hval]
  simp only []
  rw [if_neg (by simp [List.isEmpty_iff, hne])]

theorem fieldStep_set_body (sch : Schema) (x : ReqState) (r : Value)
    (h : sch x.body = .ok r) :
    (fieldStep (some sch) (fun st => st.body) (fun st v => { st with body := v }) x).body
      = r := by
  unfold fieldStep
  simp only []
  rw [h]

theorem fieldStep_set_query (sch : Schema) (x : ReqState) (r : Value)
    (h : sch x.query = .ok r) :
    (fieldStep (some sch) (fun st => st.query) (fun st v => { st with query := v }) x).query
      = r := by
  unfold fieldStep
  simp only []
  rw [h]

theorem fieldStep_set_params (sch : Schema) (x : ReqState) (r : Value)
    (h : sch x.params = .ok r) :
    (fieldStep (some sch) (fun st => st.params) (fun st v => { st with params := v }) x).params
      = r := by
  unfold fieldStep
  simp only []
  rw [h]

theorem fieldStep_set_locals (sch : Schema) (x : ReqState) (r : Value)
    (h : sch x.locals = .ok r) :
    (fieldStep (some sch) (fun st => st.locals) (fun st v => { st with locals := v }) x).locals
      = r := by
  unfold fieldStep
  simp only []
  rw [h]

theorem fieldStep_set_headers (sch : Schema) (x : ReqState)
    (entries : List (String × Value))
    (h : sch (Value.obj (buildHeaderData x.headers)) = .ok (.obj entries)) :
    (fieldStep (some sch) (fun st => Value.obj (buildHeaderData st.headers))
      (fun st v => { st with headers := mergeHeaders st.headers v }) x).headers
      = objAssign x.headers entries := by
  unfold fieldStep
  simp only []
  rw [h]
  simp [mergeHeaders]

/-! ### Claim theorems -/

/-- C1 counterexample: the claim as stated is false on the send path. With a
JSON content type declared, the intercepted send decodes the body before the
schema lookup, so emitting an undecodable body at an unregistered status
raises the decode error — not a configuration fault naming the status
code. -/
theorem send_missing_schema_preempted :
    runUse sTypedNo400 reqEmpty resJson ⟨none, .statusSend 201 (.str "x")⟩
      = .errorChannel (.error "Unexpected token in JSON")
    ∧ "Unexpected token in JSON"
      ≠ "No schema defined for status code " ++ toString 201 :=
  ⟨rfl, by decide⟩

/-- C1 (amended): under a typed-mode contract, a body emitted through either
intercepted operation is validated against exactly the schema registered for
the active status — the explicitly selected code, or 200 when none was
selected — and a status with no registered schema is a fatal configuration
error naming that code, delivered on the error channel (never as a 400
response) and raised at emission time, selection alone never faulting; with
the one exception the code forces: on the send path with a declared
structured content type the body is decoded before the schema lookup, so a
decode failure preempts the missing-schema fault and the decode error
propagates instead. -/
theorem typed_status_routing
    (s : ValidationSchema) (ur : List (Nat × Schema)) (st st' : ReqState)
    (rst : ResState)
    (hur : s.useResponse = some ur)
    (hval : validateFields s st = .ok (st', []))
    (hstatus : rst.statusCode = 200) :
    (∀ code body sch r, ur.lookup code = some sch → sch body = .ok r →
      runUse s st rst ⟨none, .statusJson code body⟩
        = .emitted st' { rst with statusCode := code } (.json r))
    ∧ (∀ body, runUse s st rst ⟨none, .json body⟩
        = runUse s st rst ⟨none, .statusJson 200 body⟩)
    ∧ (∀ code body, ur.lookup code = none →
      runUse s st rst ⟨none, .statusJson code body⟩
        = .errorChannel (.error ("No schema defined for status code " ++ toString code)))
    ∧ (∀ code, runUse s st rst ⟨none, .statusOnly code⟩
        = .noResponse st' { rst with statusCode := code })
    ∧ (∀ body, runUse s st rst ⟨none, .send body⟩
        = runUse s st rst ⟨none, .statusSend 200 body⟩)
    ∧ (ctIncludesJson rst.contentType = false →
        (∀ code body sch r, ur.lookup code = some sch → sch body = .ok r →
          runUse s st rst ⟨none, .statusSend code body⟩
            = .emitted st' { rst with statusCode := code } (.send r))
        ∧ (∀ code body, ur.lookup code = none →
          runUse s st rst ⟨none, .statusSend code body⟩
            = .errorChannel
                (.error ("No schema defined for status code " ++ toString code))))
    ∧ (ctIncludesJson rst.contentType = true →
        (∀ code body v sch r, jsonParse (jsToString body) = .ok v →
          ur.lookup code = some sch → sch v = .ok r → noUndef r = true →
          runUse s st rst ⟨none, .statusSend code body⟩
            = .emitted st' { rst with statusCode := code }
                (.send (.str (String.mk (printVal r)))))
        ∧ (∀ code body v, jsonParse (jsToString body) = .ok v → ur.lookup code = none →
          runUse s st rst ⟨none, .statusSend code body⟩
            = .errorChannel
                (.error ("No schema defined for status code " ++ toString code)))
        ∧ (∀ code body e, jsonParse (jsToString body) = .error e →
          runUse s st rst ⟨none, .statusSend code body⟩
            = .errorChannel (.error e))) := by
  have hrst : { rst with statusCode := 200 } = rst := by
    cases rst with
    | mk sc ct =>
      rw [show (ResState.mk sc ct).statusCode = sc from rfl] at hstatus
      rw [hstatus]
  refine ⟨?_, ?_, ?_, ?_, ?_, ?_, ?_⟩
  · intro code body sch r hsch hr
    rw [runUse_ok s st st' rst _ hval, hur]
    simp only [applyType, runActTyped, chainedJson, hsch, hr, ofChained]
  · intro body
    rw [runUse_ok s st st' rst _ hval, runUse_ok s st st' rst _ hval, hur]
    simp only [applyType, runActTyped, hrst]
  · intro code body hnone
    rw [runUse_ok s st st' rst _ hval, hur]
    simp only [applyType, runActTyped, chainedJson, hnone, ofChained, middlewareCatch]
  · intro code
    rw [runUse_ok s st st' rst _ hval, hur]
    simp only [applyType, runActTyped]
  · intro body
    rw [runUse_ok s st st' rst _ hval, runUse_ok s st st' rst _ hval, hur]
    simp only [applyType, runActTyped, hrst]
  · intro hctF
    constructor
    · intro code body sch r hsch hr
      rw [runUse_ok s st st' rst _ hval, hur]
      simp only [applyType, runActTyped, chainedSend, hctF, Bool.false_eq_true,
        if_false, hsch, hr, ofChained]
    · intro code body hnone
      rw [runUse_ok s st st' rst _ hval, hur]
      simp only [applyType, runActTyped, chainedSend, hctF, Bool.false_eq_true,
        if_false, hnone, ofChained, middlewareCatch]
  · intro hctT
    refine ⟨?_, ?_, ?_⟩
    · intro code body v sch r hdec hsch hr hnu
      have hjs : jsonStringify r = some (String.mk (printVal r)) := by
        cases r <;> simp [jsonStringify, noUndef] at hnu ⊢
      rw [runUse_ok s st st' rst _ hval, hur]
      simp only [applyType, runActTyped, chainedSend, hctT, hdec, hsch, hr, if_true,
        ofChained, hjs]
    · intro code body v hdec hnone
      rw [runUse_ok s st st' rst _ hval, hur]
      simp only [applyType, runActTyped, chainedSend, hctT, hdec, hnone, if_true,
        ofChained, middlewareCatch]
    · intro code body e hdec
      rw [runUse_ok s st st' rst _ hval, hur]
      simp only [applyType, runActTyped, chainedSend, hctT, hdec, if_true,
        ofChained, middlewareCatch]

theorem typed_status_routing_witness :
    (runUse sTyped1 reqEmpty resA ⟨none, .statusJson 404 (.obj [("error", .str "nf")])⟩
      = .emitted reqEmpty { resA with statusCode := 404 } (.json (.obj [("error", .str "nf")])))
    ∧ (runUse sTyped1 reqEmpty resA ⟨none, .json (.obj [("message", .str "hi")])⟩
      = runUse sTyped1 reqEmpty resA ⟨none, .statusJson 200 (.obj [("message", .str "hi")])⟩)
    ∧ (runUse sTyped1 reqEmpty resA ⟨none, .statusJson 201 (.obj [])⟩
      = .errorChannel (.error ("No schema defined for status code " ++ toString 201)))
    ∧ (runUse sTyped1 reqEmpty resA ⟨none, .statusOnly 201⟩
      = .noResponse reqEmpty { resA with statusCode := 201 })
    ∧ (runUse sTyped1 reqEmpty resA ⟨none, .send (.obj [("message", .str "hi")])⟩
      = runUse sTyped1 reqEmpty resA ⟨none, .statusSend 200 (.obj [("message", .str "hi")])⟩)
    ∧ (runUse sTyped1 reqEmpty resA ⟨none, .statusSend 404 (.str "raw")⟩
      = .emitted reqEmpty { resA with statusCode := 404 } (.send (.str "raw")))
    ∧ (runUse sTyped1 reqEmpty resA ⟨none, .statusSend 201 (.obj [])⟩
      = .errorChannel (.error ("No schema defined for status code " ++ toString 201)))
    ∧ (runUse sTyped1 reqEmpty resJson ⟨none, .statusSend 404 (.str "\"hi\"")⟩
      = .emitted reqEmpty { resJson with statusCode := 404 } (.send (.str "\"hi\"")))
    ∧ (runUse sTyped1 reqEmpty resJson ⟨none, .statusSend 201 (.str "\"hi\"")⟩
      = .errorChannel (.error ("No schema defined for status code " ++ toString 201)))
    ∧ (runUse sTyped1 reqEmpty resJson ⟨none, .statusSend 404 (.str "x")⟩
      = .errorChannel (.error "Unexpected token in JSON")) := by
  have h := typed_status_routing sTyped1 typedMap1 reqEmpty reqEmpty resA rfl rfl rfl
  have hj := typed_status_routing sTyped1 typedMap1 reqEmpty reqEmpty resJson rfl rfl rfl
  exact ⟨h.1 404 (.obj [("error", .str "nf")]) schemaAnyOk (.obj [("error", .str "nf")]) rfl rfl,
    h.2.1 (.obj [("message", .str "hi")]),
    h.2.2.1 201 (.obj []) rfl,
    h.2.2.2.1 201,
    h.2.2.2.2.1 (.obj [("message", .str "hi")]),
    (h.2.2.2.2.2.1 rfl).1 404 (.str "raw") schemaAnyOk (.str "raw") rfl rfl,
    (h.2.2.2.2.2.1 rfl).2 201 (.obj []) rfl,
    (hj.2.2.2.2.2.2 rfl).1 404 (.str "\"hi\"") (.str "hi") schemaAnyOk (.str "hi")
      rfl rfl rfl rfl,
    (hj.2.2.2.2.2.2 rfl).2.1 201 (.str "\"hi\"") (.str "hi") rfl rfl,
    (hj.2.2.2.2.2.2 rfl).2.2 404 (.str "x") "Unexpected token in JSON" rfl⟩

/-- C2: evaluation of the code at the failing input. In simple mode the
middleware installs no response interception at all: with a single response
schema that rejects every value, a handler-emitted body still reaches the
transport unvalidated (and the direct form simply passes control on), so no
"lighter response check" runs at emission time. -/
theorem simple_mode_emits_unvalidated :
    simpleModeSchema.response = some schemaReject
    ∧ schemaReject emittedBody = .zodError [rootIssue]
    ∧ runUse simpleModeSchema reqEmpty resA ⟨none, .json emittedBody⟩
        = .emitted reqEmpty resA (.json emittedBody)
    ∧ runDirect simpleModeSchema reqEmpty resA = .fellThrough reqEmpty resA :=
  ⟨rfl, rfl, rfl, rfl⟩

/-- C3 counterexample: the claim says the configuration fault for invoking a
typed-response middleware directly is raised immediately, before any request
is processed. On the code, construction succeeds without any fault — the
`validate` body performs no checks of its own — and the fault only arises
when the middleware runs on a request. -/
theorem use_guard_not_at_construction :
    validateConstruct guardSchema = .ok guardSchema
    ∧ runDirect guardSchema reqEmpty resA
      = .errorChannel
          (.error "When using useResponse, you must call .use() to provide a handler") :=
  ⟨rfl, rfl⟩

/-- C3 (amended): invoking middleware constructed from a typed-response
contract directly as a handler raises the configuration fault at request
time, the moment the handler is invoked and before any request field is
examined (the outcome is the same for every request and every field
schema). -/
theorem use_guard_fires_at_request_time (s : ValidationSchema) (st : ReqState)
    (rst : ResState) (h : s.useResponse.isSome = true) :
    runDirect s st rst
      = .errorChannel
          (.error "When using useResponse, you must call .use() to provide a handler") := by
  unfold runDirect
  rw [if_pos h]

theorem use_guard_fires_witness :
    runDirect guardSchema reqHdr resA
      = .errorChannel
          (.error "When using useResponse, you must call .use() to provide a handler") :=
  use_guard_fires_at_request_time guardSchema reqHdr resA rfl

/-- C5: the field phase attempts every present schema without
short-circuiting on validation failures — the collected batches are exactly
the per-field issue batches, each computed from its own untouched input, in
field-category order headers, body, query, params, locals (the issues carry
path, message and code, and they are flattened into the `errors` wire body) —
and the chain emits a 400 with the flattened union exactly when at least one
category failed, continuing otherwise. -/
theorem request_aggregation (s : ValidationSchema) (st st' : ReqState)
    (rst : ResState) (batches : List (List Issue))
    (hval : validateFields s st = .ok (st', batches))
    (hnr : s.useResponse = none) :
    batches = specFieldBatches s st
    ∧ (batches = [] → runDirect s st rst = .fellThrough st' rst)
    ∧ (batches ≠ [] → runDirect s st rst
        = .emitted st' { rst with statusCode := 400 }
            (.json (errorsValue batches.flatten))) := by
  refine ⟨(validateFields_ok_spec s st st' batches hval).1, ?_, ?_⟩
  · intro hemp
    exact runDirect_ok s st st' rst hnr (by rw [← hemp]; exact hval)
  · intro hne
    exact runDirect_badReq s st st' rst batches hnr hval hne

theorem request_aggregation_witness :
    [[nameIssue], [ageIssue]] = specFieldBatches sAgg reqEmpty
    ∧ runDirect sAgg reqEmpty resA
        = .emitted reqEmpty { resA with statusCode := 400 }
            (.json (errorsValue [nameIssue, ageIssue]))
    ∧ runDirect sCoerce reqCoerce resA
        = .fellThrough { reqCoerce with body := .num 42 } resA := by
  have h1 := request_aggregation sAgg reqEmpty reqEmpty resA [[nameIssue], [ageIssue]]
    rfl rfl
  have h2 := request_aggregation sCoerce reqCoerce { reqCoerce with body := .num 42 }
    resA [] rfl rfl
  exact ⟨h1.1, h1.2.2 (by simp), h2.2.1 rfl⟩

/-- C6: when a field schema throws a non-validation defect (the first one in
field order; later field schemas are arbitrary, showing the remaining checks
are abandoned), the middleware propagates exactly that error to the host
error channel — in both usage forms — and never produces the 400 structured
response for it. -/
theorem nonzod_short_circuit (s : ValidationSchema) (st : ReqState)
    (rst : ResState) (h : HandlerProg) (m : String)
    (hthrow : specFirstThrow s st = some m) :
    runUse s st rst h = .errorChannel (.error m)
    ∧ (s.useResponse = none → runDirect s st rst = .errorChannel (.error m)) := by
  obtain ⟨stE, he⟩ := validateFields_throw s st m hthrow
  exact ⟨runUse_err s st stE rst h m he,
    fun hnr => runDirect_err s st stE rst m hnr he⟩

theorem nonzod_short_circuit_witness :
    runUse sThrowContract reqEmpty resA ⟨none, .json emittedBody⟩
      = .errorChannel (.error "Body transform error")
    ∧ runDirect sThrowContract reqEmpty resA
      = .errorChannel (.error "Body transform error") := by
  have h := nonzod_short_circuit sThrowContract reqEmpty resA ⟨none, .json emittedBody⟩
    "Body transform error" rfl
  exact ⟨h.1, h.2 rfl⟩

/-- C7: every successful request-side field validation replaces the
corresponding request-state field (body, query, params, locals) with the
validated — possibly coerced — value, and it is this transformed state that
continues down the chain to the handler. -/
theorem writeback_validated_values (s : ValidationSchema) (st st' : ReqState)
    (rst : ResState) (batches : List (List Issue))
    (hval : validateFields s st = .ok (st', batches)) :
    (∀ sch r, s.body = some sch → sch st.body = .ok r → st'.body = r)
    ∧ (∀ sch r, s.query = some sch → sch st.query = .ok r → st'.query = r)
    ∧ (∀ sch r, s.params = some sch → sch st.params = .ok r → st'.params = r)
    ∧ (∀ sch r, s.locals = some sch → sch st.locals = .ok r → st'.locals = r)
    ∧ (batches = [] → s.useResponse = none →
        runDirect s st rst = .fellThrough st' rst) := by
  obtain ⟨_, hst'⟩ := validateFields_ok_spec s st st' batches hval
  subst hst'
  refine ⟨?_, ?_, ?_, ?_, ?_⟩
  · intro sch r hsch hr
    unfold fieldStepsAll
    rw [(fieldStep_locals_proj _ _ _).2.1, (fieldStep_params_proj _ _ _).2.1,
      (fieldStep_query_proj _ _ _).2.1, hsch]
    exact fieldStep_set_body sch _ r
      (by rw [(fieldStep_headers_proj _ _ _).1]; exact hr)
  · intro sch r hsch hr
    unfold fieldStepsAll
    rw [(fieldStep_locals_proj _ _ _).2.2.1, (fieldStep_params_proj _ _ _).2.2.1, hsch]
    exact fieldStep_set_query sch _ r
      (by rw [(fieldStep_body_proj _ _ _).2.1, (fieldStep_headers_proj _ _ _).2.1]
          exact hr)
  · intro sch r hsch hr
    unfold fieldStepsAll
    rw [(fieldStep_locals_proj _ _ _).2.2.2, hsch]
    exact fieldStep_set_params sch _ r
      (by rw [(fieldStep_query_proj _ _ _).2.2.1, (fieldStep_body_proj _ _ _).2.2.1,
            (fieldStep_headers_proj _ _ _).2.2.1]
          exact hr)
  · intro sch r hsch hr
    unfold fieldStepsAll
    rw [hsch]
    exact fieldStep_set_locals sch _ r
      (by rw [(fieldStep_params_proj _ _ _).2.2.2, (fieldStep_query_proj _ _ _).2.2.2,
            (fieldStep_body_proj _ _ _).2.2.2, (fieldStep_headers_proj _ _ _).2.2.2]
          exact hr)
  · intro hemp hnr
    exact runDirect_ok s st _ rst hnr (by rw [← hemp]; exact hval)

theorem writeback_validated_values_witness :
    ({ reqCoerce with body := Value.num 42 } : ReqState).body = Value.num 42
    ∧ runDirect sCoerce reqCoerce resA
        = .fellThrough { reqCoerce with body := Value.num 42 } resA := by
  have h := writeback_validated_values sCoerce reqCoerce
    { reqCoerce with body := Value.num 42 } resA [] rfl
  exact ⟨h.1 schemaCoerceAge (.num 42) rfl rfl, h.2.2.2.2 rfl rfl⟩

/-- C8: the header normalization view is built before the headers schema
runs — every key lowercased, every multi-valued header reduced to its first
element, an `undefined` value kept `undefined` rather than coerced to an
empty string — and on success the validated result is merged into the
original header collection with `Object.assign` semantics: keys absent from
the validated result keep their original values. -/
theorem header_normalization_merge (s : ValidationSchema) (st st' : ReqState)
    (batches : List (List Issue)) (sch : Schema)
    (entries : List (String × Value))
    (hs : s.headers = some sch)
    (hval : validateFields s st = .ok (st', batches))
    (hres : sch (headersInput st) = .ok (.obj entries)) :
    st'.headers = objAssign st.headers entries
    ∧ (∀ k, entries.lookup k = none →
        st'.headers.lookup k = st.headers.lookup k)
    ∧ (∀ p ∈ buildHeaderData st.headers,
        ∃ q ∈ st.headers, p.1 = lowerStr q.1 ∧ p.2 = headerFirst q.2)
    ∧ headerFirst Value.undef = Value.undef
    ∧ (∀ x xs, headerFirst (.arr (x :: xs)) = x)
    ∧ (∀ str, headerFirst (.str str) = .str str) := by
  obtain ⟨_, hst'⟩ := validateFields_ok_spec s st st' batches hval
  subst hst'
  have hres' : sch (Value.obj (buildHeaderData st.headers)) = .ok (.obj entries) := hres
  have hhdr : (fieldStepsAll s st).headers = objAssign st.headers entries := by
    unfold fieldStepsAll
    rw [(fieldStep_locals_proj _ _ _).1, (fieldStep_params_proj _ _ _).1,
      (fieldStep_query_proj _ _ _).1, (fieldStep_body_proj _ _ _).1, hs]
    exact fieldStep_set_headers sch st entries hres'
  refine ⟨hhdr, ?_, ?_, rfl, fun x xs => rfl, fun str => rfl⟩
  · intro k hk
    rw [hhdr]
    exact lookup_objAssign_none entries st.headers k hk
  · intro p hp
    exact mem_buildHeaderData st.headers p hp

theorem header_normalization_merge_witness :
    ({ reqHdr with headers := reqHdr.headers ++ [("api-key", Value.str "secret")] }
        : ReqState).headers
      = objAssign reqHdr.headers [("api-key", Value.str "secret")]
    ∧ ({ reqHdr with headers := reqHdr.headers ++ [("api-key", Value.str "secret")] }
        : ReqState).headers.lookup "Accept" = reqHdr.headers.lookup "Accept"
    ∧ (∃ q ∈ reqHdr.headers,
        ("x-null", Value.undef).1 = lowerStr q.1
        ∧ ("x-null", Value.undef).2 = headerFirst q.2)
    ∧ headerFirst Value.undef = Value.undef
    ∧ headerFirst (.arr [Value.str "a1", Value.str "a2"]) = Value.str "a1" := by
  have h := header_normalization_merge sHdrContract reqHdr
    { reqHdr with headers := reqHdr.headers ++ [("api-key", Value.str "secret")] }
    [] schemaHdr [("api-key", Value.str "secret")] rfl rfl rfl
  exact ⟨h.1, h.2.1 "Accept" rfl,
    h.2.2.1 ("x-null", Value.undef)
      (List.Mem.tail _ (List.Mem.tail _ (List.Mem.head _))),
    h.2.2.2.1, h.2.2.2.2.1 (Value.str "a1") [Value.str "a2"]⟩

/-- C9: under a typed-mode contract whose request-side validation fails, the
aggregated 400 response is emitted through the original, not yet intercepted
status/json operations: the emitted body is exactly the flattened issue list,
and the outcome is identical whatever the status-keyed map contains — in
particular a schema registered under 400 is never consulted. -/
theorem request_400_bypasses_interceptor (s : ValidationSchema)
    (ur : List (Nat × Schema)) (st st' : ReqState) (rst : ResState)
    (h : HandlerProg) (batches : List (List Issue))
    (hur : s.useResponse = some ur)
    (hval : validateFields s st = .ok (st', batches))
    (hne : batches ≠ []) :
    runUse s st rst h
      = .emitted st' { rst with statusCode := 400 }
          (.json (errorsValue batches.flatten))
    ∧ (∀ ur', runUse { s with useResponse := some ur' } st rst h
        = runUse s st rst h) := by
  refine ⟨runUse_badReq s st st' rst h batches hval hne, ?_⟩
  intro ur'
  have hval' : validateFields { s with useResponse := some ur' } st
      = .ok (st', batches) := hval
  rw [runUse_badReq { s with useResponse := some ur' } st st' rst h batches hval' hne,
    runUse_badReq s st st' rst h batches hval hne]

theorem request_400_bypasses_interceptor_witness :
    runUse sReq400 reqEmpty resA ⟨none, .json emittedBody⟩
      = .emitted reqEmpty { resA with statusCode := 400 }
          (.json (errorsValue [nameIssue]))
    ∧ runUse { sReq400 with useResponse := some [] } reqEmpty resA
          ⟨none, .json emittedBody⟩
      = runUse sReq400 reqEmpty resA ⟨none, .json emittedBody⟩ := by
  have h := request_400_bypasses_interceptor sReq400 [(400, schemaReject)] reqEmpty
    reqEmpty resA ⟨none, .json emittedBody⟩ [[nameIssue]] rfl rfl (by simp)
  exact ⟨h.1, h.2 []⟩

/-- C10: in the attach form under a typed contract, a handler body that fails
its active status's schema raises a `ZodError` that the middleware catch
re-dispatches as `res.status(400).json({ errors })` through the already
intercepted operations — so with a permissive 400 schema the client receives
the validated 400 body, while with no schema registered under 400 the
re-dispatch itself throws the error whose message is
`No schema defined for status code 400` out to the host's error channel. -/
theorem handler_zod_redispatch (s : ValidationSchema) (ur : List (Nat × Schema))
    (st st' : ReqState) (rst : ResState) (code : Nat) (body : Value)
    (sch : Schema) (issues : List Issue)
    (hur : s.useResponse = some ur)
    (hval : validateFields s st = .ok (st', []))
    (hsch : ur.lookup code = some sch)
    (hbody : sch body = .zodError issues) :
    (ur.lookup 400 = none →
      runUse s st rst ⟨none, .statusJson code body⟩
        = .errorChannel (.error ("No schema defined for status code " ++ toString 400)))
    ∧ (∀ sch400 r, ur.lookup 400 = some sch400 →
        sch400 (errorsValue issues) = .ok r →
      runUse s st rst ⟨none, .statusJson code body⟩
        = .emitted st' { rst with statusCode := 400 } (.json r)) := by
  constructor
  · intro h400
    rw [runUse_ok s st st' rst _ hval, hur]
    simp only [applyType, runActTyped, chainedJson, hsch, hbody, ofChained,
      middlewareCatch, hur, h400]
  · intro sch400 r h400 hr
    rw [runUse_ok s st st' rst _ hval, hur]
    simp only [applyType, runActTyped, chainedJson, hsch, hbody, ofChained,
      middlewareCatch, hur, h400, hr]

theorem handler_zod_redispatch_witness :
    runUse sTypedNo400 reqEmpty resA ⟨none, .statusJson 200 (.obj [])⟩
      = .errorChannel (.error ("No schema defined for status code " ++ toString 400))
    ∧ runUse sTypedWith400 reqEmpty resA ⟨none, .statusJson 200 (.obj [])⟩
      = .emitted reqEmpty { resA with statusCode := 400 }
          (.json (errorsValue [msgIssue])) := by
  have h1 := handler_zod_redispatch sTypedNo400 [(200, schemaMsg)] reqEmpty reqEmpty
    resA 200 (.obj []) schemaMsg [msgIssue] rfl rfl rfl rfl
  have h2 := handler_zod_redispatch sTypedWith400 [(200, schemaMsg), (400, schemaAnyOk)]
    reqEmpty reqEmpty resA 200 (.obj []) schemaMsg [msgIssue] rfl rfl rfl rfl
  exact ⟨h1.1 rfl, h2.2 schemaAnyOk (errorsValue [msgIssue]) rfl rfl⟩

/-- C4: the possibly-serialized (send) emission is content-type aware. With a
declared JSON content type the emitted value is decoded before validation: a
decode failure propagates as a fatal error carrying the parser's message on
the error channel — before any schema is consulted and never as a 400 —
while on success the validated result is re-serialized and the wire string
decodes back to exactly the validated value. Without a structured content
type, the raw value is validated as-is and handed to the transport
unchanged. -/
theorem send_content_type_policy (s : ValidationSchema) (ur : List (Nat × Schema))
    (st st' : ReqState) (rst : ResState) (ct : String) (code : Nat) (body : Value)
    (hur : s.useResponse = some ur)
    (hval : validateFields s st = .ok (st', [])) :
    (∀ e, ctIncludesJson (some ct) = true → jsonParse (jsToString body) = .error e →
      runUse s st rst ⟨some ct, .statusSend code body⟩
        = .errorChannel (.error e))
    ∧ (∀ v sch r, ctIncludesJson (some ct) = true →
        jsonParse (jsToString body) = .ok v →
        ur.lookup code = some sch → sch v = .ok r → noUndef r = true →
        ∃ wire : String,
          runUse s st rst ⟨some ct, .statusSend code body⟩
            = .emitted st' { rst with statusCode := code, contentType := some ct }
                (.send (.str wire))
          ∧ jsonParse wire = .ok r)
    ∧ (∀ sch r, ctIncludesJson (some ct) = false → ur.lookup code = some sch →
        sch body = .ok r →
        runUse s st rst ⟨some ct, .statusSend code body⟩
          = .emitted st' { rst with statusCode := code, contentType := some ct }
              (.send r)) := by
  refine ⟨?_, ?_, ?_⟩
  · intro e hct he
    rw [runUse_ok s st st' rst _ hval, hur]
    simp only [applyType, runActTyped, chainedSend, hct, he, if_true, ofChained,
      middlewareCatch]
  · intro v sch r hct he hsch hr hnu
    have hjs : jsonStringify r = some (String.mk (printVal r)) := by
      cases r <;> simp [jsonStringify, noUndef] at hnu ⊢
    refine ⟨String.mk (printVal r), ?_, jsonParse_jsonStringify r hnu _ hjs⟩
    rw [runUse_ok s st st' rst _ hval, hur]
    simp only [applyType, runActTyped, chainedSend, hct, he, hsch, hr, if_true,
      ofChained, hjs]
  · intro sch r hct hsch hr
    rw [runUse_ok s st st' rst _ hval, hur]
    simp only [applyType, runActTyped, chainedSend, hct, hsch, hr, Bool.false_eq_true,
      if_false, ofChained]

theorem send_content_type_policy_witness :
    runUse sTyped1 reqEmpty resA
        ⟨some "application/json", .statusSend 200 (.str "\x7b\"message\":\"Hello\"")⟩
      = .errorChannel (.error "Expected comma or closing brace in JSON object")
    ∧ (∃ wire : String,
        runUse sTyped1 reqEmpty resA
            ⟨some "application/json", .statusSend 200 (.str "\x7b\"message\":\"Hello\"\x7d")⟩
          = .emitted reqEmpty
              { resA with statusCode := 200, contentType := some "application/json" }
              (.send (.str wire))
        ∧ jsonParse wire = .ok (.obj [("message", .str "Hello")]))
    ∧ runUse sTyped1 reqEmpty resA ⟨some "text/plain", .statusSend 404 (.str "Hello World")⟩
      = .emitted reqEmpty
          { resA with statusCode := 404, contentType := some "text/plain" }
          (.send (.str "Hello World")) := by
  have h1 := send_content_type_policy sTyped1 typedMap1 reqEmpty reqEmpty resA
    "application/json" 200 (.str "\x7b\"message\":\"Hello\"") rfl rfl
  have h2 := send_content_type_policy sTyped1 typedMap1 reqEmpty reqEmpty resA
    "application/json" 200 (.str "\x7b\"message\":\"Hello\"\x7d") rfl rfl
  have h3 := send_content_type_policy sTyped1 typedMap1 reqEmpty reqEmpty resA
    "text/plain" 404 (.str "Hello World") rfl rfl
  exact ⟨h1.1 "Expected comma or closing brace in JSON object" rfl rfl,
    h2.2.1 (.obj [("message", .str "Hello")]) schemaMsg (.obj [("message", .str "Hello")])
      rfl rfl rfl rfl rfl,
    h3.2.2 schemaAnyOk (.str "Hello World") rfl rfl rfl⟩

end Echt
